import Mathlib

/-! SIL.cpp: entity references, symbol names and address-projection paths

A shallow embedding of `lib/SIL/SIL.cpp`:

* the value graph and `findAddressProjectionPathBetweenValues`;
* the declaration facts, the two `SILDeclRef` constructors, `getDefaultArgGenerator`,
  `isForeignThunk` and `mangleConstant` / `SILDeclRef::mangle`;
* the declaration contexts, the type structure and `getDeclLinkage`,
  `getGenericClauseLinkage`, `getTypeLinkage`.

Pointers are identities (natural numbers) looked up in an explicit context, a
failed `assert`, `cast` or `llvm_unreachable` is `none`, and the `while` loop of
the path finder and of `getDeclLinkage` takes fuel: one unit per evaluation of the
loop condition.
-/

namespace SIL

/-! ## Value graph -/

/-- A `SILValue`: the defining `ValueBase` (by identity) and a result number. -/
structure SILValue where
  Def : Nat
  ResultNumber : Nat
deriving DecidableEq, Repr

/-- The node a `ValueBase` identity denotes, as far as the path finder looks at it:
one of the three address-projection instructions, with its operand 0 and the
field or index it projects, or anything else. -/
inductive ValueBase where
  | StructElementAddrInst (Operand0 : SILValue) (Field : Nat)
  | TupleElementAddrInst (Operand0 : SILValue) (FieldNo : Nat)
  | RefElementAddrInst (Operand0 : SILValue) (Field : Nat)
  | Other
deriving DecidableEq, Repr

/-- The def-use graph, read-only: what each `ValueBase` identity is. -/
abbrev ValueGraph := Nat → ValueBase

/-- Modelled from the spec: the `Projection` value type of `swift/SIL/Projection.h`,
which is not part of the sources: a kind (field of struct, element of tuple, stored
property of class) plus the identity of the field, index or property accessed. -/
inductive Projection where
  | StructField (Field : Nat)
  | TupleElement (Index : Nat)
  | ClassProperty (Field : Nat)
deriving DecidableEq, Repr

/-- Modelled from the spec: `Projection::isAddressProjection` of
`swift/SIL/Projection.h`, which is not part of the sources: the defining instruction
is one of struct-field-address, tuple-element-address, class-stored-property-address. -/
def isAddressProjection (G : ValueGraph) (V : SILValue) : Bool :=
  match G V.Def with
  | .StructElementAddrInst _ _ => true
  | .TupleElementAddrInst _ _ => true
  | .RefElementAddrInst _ _ => true
  | .Other => false

/-- The `while` loop of `findAddressProjectionPathBetweenValues` (lines 425-433),
started at `Iter` with the entries `Path` already recorded. It gives the cursor and
the path at loop exit, and `none` when the fuel does not reach the exit. -/
def projectionWalk (G : ValueGraph) (V1 : SILValue) :
    Nat → SILValue → List Projection → Option (SILValue × List Projection)
  | 0, _, _ => none
  | fuel + 1, Iter, Path =>
    if isAddressProjection G Iter && V1 != Iter then
      match G Iter.Def with
      | .StructElementAddrInst Op F =>
          projectionWalk G V1 fuel Op (Path ++ [Projection.StructField F])
      | .TupleElementAddrInst Op N =>
          projectionWalk G V1 fuel Op (Path ++ [Projection.TupleElement N])
      | .RefElementAddrInst Op F =>
          projectionWalk G V1 fuel Op (Path ++ [Projection.ClassProperty F])
      | .Other => none
    else
      some (Iter, Path)

/-- The function `findAddressProjectionPathBetweenValues(V1, V2, Path)` (lines 413-437):
the boolean returned and the content of `Path` afterwards. -/
def findAddressProjectionPathBetweenValues (G : ValueGraph) (fuel : Nat)
    (V1 V2 : SILValue) (Path : List Projection) : Option (Bool × List Projection) :=
  if V1 = V2 then
    some (true, Path)
  else
    match projectionWalk G V1 fuel V2 Path with
    | none => none
    | some (Iter, Path') => some (!Path'.isEmpty && V1 == Iter, Path')

/-! ### Describing chains of projections (specification side) -/

/-- One backward step from a value defined by an address-projection instruction:
the `Projection` describing the instruction, and its operand 0. -/
def projectionStep (G : ValueGraph) (V : SILValue) : Option (Projection × SILValue) :=
  match G V.Def with
  | .StructElementAddrInst Op F => some (Projection.StructField F, Op)
  | .TupleElementAddrInst Op N => some (Projection.TupleElement N, Op)
  | .RefElementAddrInst Op F => some (Projection.ClassProperty F, Op)
  | .Other => none

/-- Follows exactly `k` address-projection instructions back from `V`: the
projections met, listed from `V` inwards, and the innermost operand; `none` when one
of the `k` values on the way is not defined by an address-projection instruction. -/
def followChain (G : ValueGraph) : Nat → SILValue → Option (List Projection × SILValue)
  | 0, V => some ([], V)
  | k + 1, V =>
    match projectionStep G V with
    | none => none
    | some (P, Op) =>
      match followChain G k Op with
      | none => none
      | some (Ps, R) => some (P :: Ps, R)

/-- The values defined by the first `k` instructions of the chain of projections
from `V`: `V` itself, then the operand 0 of its instruction, and so on, stopping
early at a value that no address-projection instruction defines. -/
def chainValues (G : ValueGraph) : Nat → SILValue → List SILValue
  | 0, _ => []
  | k + 1, V =>
    V :: (match projectionStep G V with
          | none => []
          | some (_, Op) => chainValues G k Op)

/-- Applying the projection `P` to the value `V` gives `W`: the value `W` is defined
by an address-projection instruction described by `P` whose operand 0 is `V`. -/
def appliesTo (G : ValueGraph) (V : SILValue) (P : Projection) (W : SILValue) : Prop :=
  projectionStep G W = some (P, V)

/-- Applying the projections `Ps`, first entry first, starting at `V` leads to `W`. -/
def reconstructs (G : ValueGraph) : SILValue → List Projection → SILValue → Prop
  | V, [], W => V = W
  | V, P :: Ps, W => ∃ U, appliesTo G V P U ∧ reconstructs G U Ps W

/-! ## Declaration facts -/

/-- Identity of a declaration: a `ValueDecl *`. -/
abbrev DeclId := Nat

/-- Identity of an anonymous function literal: an `AbstractClosureExpr *`. -/
abbrev ClosureId := Nat

/-- The accessor role of a function declaration (`FuncDecl::getAccessorKind`). -/
inductive AccessorKind where
  | NotAccessor
  | IsGetter
  | IsSetter
  | IsWillSet
  | IsDidSet
deriving DecidableEq, Repr

/-- The dynamic class of a `ValueDecl`, as the `dyn_cast` chains of the constructors
discriminate it, with the facts read from each class: for a function the number of
body parameter patterns (argument-clauses), whether it has local captures, its
accessor role and the storage declaration it accesses; for an enum element whether
it has an argument type; for a variable whether its context is local and whether it
has storage. `Other` is any other value declaration. -/
inductive DeclShape where
  | FuncDecl (BodyParamPatterns : Nat) (hasLocalCaptures : Bool)
      (Accessor : AccessorKind) (AccessorStorageDecl : DeclId)
  | ConstructorDecl
  | EnumElementDecl (hasArgumentType : Bool)
  | DestructorDecl
  | ClassDecl
  | VarDecl (isLocalContext : Bool) (hasStorage : Bool)
  | Other
deriving DecidableEq, Repr

/-- What `mangleConstant` reads of a Clang declaration: whether it is a
`clang::DeclaratorDecl`, its asm label if it has the attribute, and its name. -/
structure ClangDecl where
  isDeclaratorDecl : Bool
  AsmLabel : Option String
  Name : String
deriving DecidableEq, Repr

/-- A Clang node is a Clang declaration or a macro. -/
inductive ClangNode where
  | Decl (D : ClangDecl)
  | Macro
deriving DecidableEq, Repr

/-- The facts of one value declaration. -/
structure ValueDecl where
  Shape : DeclShape
  AsmName : String
  Clang : Option ClangNode
deriving DecidableEq, Repr

/-- The facts of one closure expression seen through `AnyFunctionRef`. -/
structure AbstractClosureExpr where
  ParamPatterns : Nat
  hasLocalCaptures : Bool
deriving DecidableEq, Repr

/-- The declarations and closures behind the pointers. -/
structure ASTContext where
  Decls : DeclId → ValueDecl
  Closures : ClosureId → AbstractClosureExpr

/-- The query `ValueDecl::hasClangNode`. -/
def ValueDecl.hasClangNode (D : ValueDecl) : Bool :=
  D.Clang.isSome

/-- The query `ValueDecl::getClangDecl`: the Clang declaration, when the node is one. -/
def ValueDecl.getClangDecl (D : ValueDecl) : Option ClangDecl :=
  match D.Clang with
  | some (ClangNode.Decl C) => some C
  | _ => none

/-- Whether the declaration is a `FuncDecl` (`isa<FuncDecl>`). -/
def DeclShape.isFuncDecl : DeclShape → Bool
  | .FuncDecl _ _ _ _ => true
  | _ => false

/-! ## SILDeclRef -/

/-- The enumeration `SILDeclRef::Kind`. -/
inductive Kind where
  | Func
  | Allocator
  | Initializer
  | EnumElement
  | Destroyer
  | Deallocator
  | GlobalAccessor
  | DefaultArgGenerator
  | IVarInitializer
  | IVarDestroyer
deriving DecidableEq, Repr

/-- The union `SILDeclRef::Loc`: a declaration or a closure expression. -/
inductive Loc where
  | Decl (vd : DeclId)
  | Closure (ACE : ClosureId)
deriving DecidableEq, Repr

/-- The fields of a `SILDeclRef`. -/
structure SILDeclRef where
  loc : Loc
  kind : Kind
  uncurryLevel : Nat
  isCurried : Bool
  isForeign : Bool
  defaultArgIndex : Nat
deriving DecidableEq, Repr

/-- The function `getFuncNaturalUncurryLevel` (lines 56-64), on the number of body
parameter patterns and the capture flag of the `AnyFunctionRef`; `none` is the
failed assertion. The `unsigned` level is a natural number: a count of
argument-clauses stays far below `2 ^ 32`. -/
def getFuncNaturalUncurryLevel (BodyParamPatterns : Nat) (hasLocalCaptures : Bool) :
    Option Nat :=
  if BodyParamPatterns ≥ 1 then
    let Level := BodyParamPatterns - 1
    some (if hasLocalCaptures then Level + 1 else Level)
  else
    none

/-- The tail shared by both constructors (lines 106-112 and 166-173): the check of
the requested level against the natural one, the stored level and `isCurried`.
`ConstructAtNaturalUncurryLevel` is the sentinel of `SILDeclRef.h`, a parameter. -/
def setUncurryLevel (ConstructAtNaturalUncurryLevel atUncurryLevel naturalUncurryLevel : Nat) :
    Option (Nat × Bool) :=
  if atUncurryLevel = ConstructAtNaturalUncurryLevel
      ∨ atUncurryLevel ≤ naturalUncurryLevel then
    let uncurryLevel :=
      if atUncurryLevel = ConstructAtNaturalUncurryLevel then naturalUncurryLevel
      else atUncurryLevel
    some (uncurryLevel, uncurryLevel != naturalUncurryLevel)
  else
    none

/-- The constructor `SILDeclRef(ValueDecl *vd, Kind kind, unsigned atUncurryLevel,
bool isForeign)` (lines 66-113); `none` is a failed assertion or `llvm_unreachable`. -/
def SILDeclRef.ofValueDecl (ctx : ASTContext) (ConstructAtNaturalUncurryLevel : Nat)
    (vd : DeclId) (kind : Kind) (atUncurryLevel : Nat) (isForeign : Bool) :
    Option SILDeclRef :=
  let naturalUncurryLevel : Option Nat :=
    match (ctx.Decls vd).Shape with
    | .FuncDecl P Captures _ _ =>
      if kind = Kind.Func then getFuncNaturalUncurryLevel P Captures else none
    | .ConstructorDecl =>
      if kind = Kind.Allocator ∨ kind = Kind.Initializer then some 1 else none
    | .EnumElementDecl hasArgumentType =>
      if kind = Kind.EnumElement then some (if hasArgumentType then 1 else 0) else none
    | .DestructorDecl =>
      if kind = Kind.Destroyer ∨ kind = Kind.Deallocator then some 0 else none
    | .ClassDecl =>
      if kind = Kind.IVarInitializer ∨ kind = Kind.IVarDestroyer then some 1 else none
    | .VarDecl isLocalContext hasStorage =>
      if kind = Kind.GlobalAccessor then
        if !isLocalContext then
          if hasStorage then some 0 else none
        else none
      else none
    | .Other => none
  match naturalUncurryLevel with
  | none => none
  | some natural =>
    match setUncurryLevel ConstructAtNaturalUncurryLevel atUncurryLevel natural with
    | none => none
    | some (uncurryLevel, isCurried) =>
      some { loc := Loc.Decl vd, kind := kind, uncurryLevel := uncurryLevel,
             isCurried := isCurried, isForeign := isForeign, defaultArgIndex := 0 }

/-- The constructor `SILDeclRef(Loc baseLoc, unsigned atUncurryLevel, bool asForeign)`
(lines 115-175); `none` is a failed assertion or `llvm_unreachable`. The dispatch
gives the kind, the natural level and the value of `asForeign` after it. -/
def SILDeclRef.ofLoc (ctx : ASTContext) (ConstructAtNaturalUncurryLevel : Nat)
    (baseLoc : Loc) (atUncurryLevel : Nat) (asForeign : Bool) : Option SILDeclRef :=
  let dispatch : Option (Kind × Nat × Bool) :=
    match baseLoc with
    | .Decl vd =>
      match (ctx.Decls vd).Shape with
      | .FuncDecl P Captures _ _ =>
        match getFuncNaturalUncurryLevel P Captures with
        | none => none
        | some natural => some (Kind.Func, natural, asForeign)
      | .ConstructorDecl => some (Kind.Allocator, 1, false)
      | .EnumElementDecl hasArgumentType =>
        some (Kind.EnumElement, if hasArgumentType then 1 else 0, asForeign)
      | .VarDecl _ _ => none
      | .DestructorDecl => some (Kind.Deallocator, 0, asForeign)
      | .ClassDecl => none
      | .Other => none
    | .Closure ACE =>
      if (ctx.Closures ACE).ParamPatterns ≥ 1 then
        match getFuncNaturalUncurryLevel (ctx.Closures ACE).ParamPatterns
            (ctx.Closures ACE).hasLocalCaptures with
        | none => none
        | some natural => some (Kind.Func, natural, asForeign)
      else none
  match dispatch with
  | none => none
  | some (kind, natural, asForeign') =>
    match setUncurryLevel ConstructAtNaturalUncurryLevel atUncurryLevel natural with
    | none => none
    | some (uncurryLevel, isCurried) =>
      some { loc := baseLoc, kind := kind, uncurryLevel := uncurryLevel,
             isCurried := isCurried, isForeign := asForeign', defaultArgIndex := 0 }

/-- The query `SILDeclRef::hasDecl`. -/
def SILDeclRef.hasDecl (c : SILDeclRef) : Bool :=
  match c.loc with
  | .Decl _ => true
  | .Closure _ => false

/-- The query `SILDeclRef::isForeignThunk` (lines 194-202). -/
def SILDeclRef.isForeignThunk (ctx : ASTContext) (c : SILDeclRef) : Bool :=
  match c.loc with
  | .Closure _ => false
  | .Decl vd =>
    if (ctx.Decls vd).Shape.isFuncDecl && (ctx.Decls vd).hasClangNode then
      !c.isForeign
    else
      false

/-! ## Symbol names -/

/-- The enumeration `ResilienceExpansion`, by its numeric value. -/
abbrev ResilienceExpansion := Nat

/-- The name-mangling facility of `swift/AST/Mangle.h`, which is not part of the
sources: the eight entity encoders `mangleConstant` calls, each as the string it
appends to the buffer. They are parameters of the model. -/
structure Mangler where
  mangleClosureEntity : ClosureId → ResilienceExpansion → Nat → String
  mangleAccessorEntity : Char → DeclId → ResilienceExpansion → String
  mangleEntity : DeclId → ResilienceExpansion → Nat → String
  mangleDestructorEntity : DeclId → Bool → String
  mangleConstructorEntity : DeclId → Bool → ResilienceExpansion → Nat → String
  mangleIVarInitDestroyEntity : DeclId → Bool → String
  mangleAddressorEntity : DeclId → String
  mangleDefaultArgumentEntity : DeclId → Nat → String

/-- The prefix chosen at lines 213-217 of `mangleConstant`. -/
def introducer (ctx : ASTContext) (c : SILDeclRef) : String :=
  if c.isForeign then "_TTo"
  else if c.isForeignThunk ctx then "_TTO"
  else "_T"

/-- The accessor letter of lines 246-253; `'\x00'` stands for no accessor. -/
def AccessorKind.AccessorLetter : AccessorKind → Char
  | .NotAccessor => '\x00'
  | .IsGetter => 'g'
  | .IsSetter => 's'
  | .IsWillSet => 'w'
  | .IsDidSet => 'W'

/-- The `case SILDeclRef::Kind::EnumElement:` part of `mangleConstant` (lines 267-285),
which the `Func` case falls through to: the Clang-name bypass or the general entity. -/
def mangleOtherDecl (ctx : ASTContext) (mangler : Mangler) (c : SILDeclRef)
    (expansion : ResilienceExpansion) : Option String :=
  match c.loc with
  | .Closure _ => none
  | .Decl vd =>
    let general := some (introducer ctx c ++ mangler.mangleEntity vd expansion c.uncurryLevel)
    match (ctx.Decls vd).getClangDecl with
    | none => general
    | some clangDecl =>
      if !c.isForeignThunk ctx && !c.isCurried then
        if clangDecl.isDeclaratorDecl then
          match clangDecl.AsmLabel with
          | some asmLabel => some ("\x01" ++ asmLabel)
          | none => some clangDecl.Name
        else general
      else general

/-- The function `mangleConstant` (lines 204-344): the string written to the buffer;
`none` is a failed `cast` or `getDecl` assertion. -/
def mangleConstant (ctx : ASTContext) (mangler : Mangler) (c : SILDeclRef)
    (expansion : ResilienceExpansion) : Option String :=
  match c.kind with
  | .Func =>
    match c.loc with
    | .Closure ACE =>
      some (introducer ctx c ++ mangler.mangleClosureEntity ACE expansion c.uncurryLevel)
    | .Decl vd =>
      if !(ctx.Decls vd).AsmName.isEmpty && !c.isForeignThunk ctx && !c.isCurried then
        some (ctx.Decls vd).AsmName
      else
        match (ctx.Decls vd).Shape with
        | .FuncDecl _ _ Accessor AccessorStorageDecl =>
          if Accessor.AccessorLetter ≠ '\x00' then
            some (introducer ctx c
              ++ mangler.mangleAccessorEntity Accessor.AccessorLetter AccessorStorageDecl
                  expansion)
          else mangleOtherDecl ctx mangler c expansion
        | _ => mangleOtherDecl ctx mangler c expansion
  | .EnumElement => mangleOtherDecl ctx mangler c expansion
  | .Deallocator =>
    match c.loc with
    | .Closure _ => none
    | .Decl vd =>
      match (ctx.Decls vd).Shape with
      | .DestructorDecl => some (introducer ctx c ++ mangler.mangleDestructorEntity vd true)
      | _ => none
  | .Destroyer =>
    match c.loc with
    | .Closure _ => none
    | .Decl vd =>
      match (ctx.Decls vd).Shape with
      | .DestructorDecl => some (introducer ctx c ++ mangler.mangleDestructorEntity vd false)
      | _ => none
  | .Allocator =>
    match c.loc with
    | .Closure _ => none
    | .Decl vd =>
      match (ctx.Decls vd).Shape with
      | .ConstructorDecl =>
        some (introducer ctx c
          ++ mangler.mangleConstructorEntity vd true expansion c.uncurryLevel)
      | _ => none
  | .Initializer =>
    match c.loc with
    | .Closure _ => none
    | .Decl vd =>
      match (ctx.Decls vd).Shape with
      | .ConstructorDecl =>
        some (introducer ctx c
          ++ mangler.mangleConstructorEntity vd false expansion c.uncurryLevel)
      | _ => none
  | .IVarInitializer =>
    match c.loc with
    | .Closure _ => none
    | .Decl vd =>
      match (ctx.Decls vd).Shape with
      | .ClassDecl =>
        some (introducer ctx c ++ mangler.mangleIVarInitDestroyEntity vd false)
      | _ => none
  | .IVarDestroyer =>
    match c.loc with
    | .Closure _ => none
    | .Decl vd =>
      match (ctx.Decls vd).Shape with
      | .ClassDecl =>
        some (introducer ctx c ++ mangler.mangleIVarInitDestroyEntity vd true)
      | _ => none
  | .GlobalAccessor =>
    match c.loc with
    | .Closure _ => none
    | .Decl vd => some (introducer ctx c ++ mangler.mangleAddressorEntity vd)
  | .DefaultArgGenerator =>
    match c.loc with
    | .Closure _ => none
    | .Decl vd =>
      match (ctx.Decls vd).Shape with
      | .FuncDecl _ _ _ _ =>
        some (introducer ctx c ++ mangler.mangleDefaultArgumentEntity vd c.defaultArgIndex)
      | .ConstructorDecl =>
        some (introducer ctx c ++ mangler.mangleDefaultArgumentEntity vd c.defaultArgIndex)
      | .DestructorDecl =>
        some (introducer ctx c ++ mangler.mangleDefaultArgumentEntity vd c.defaultArgIndex)
      | _ => none

/-- The method `SILDeclRef::mangle` (lines 346-352): the buffer must be empty, and the
string returned is what `mangleConstant` wrote. -/
def SILDeclRef.mangle (ctx : ASTContext) (mangler : Mangler) (c : SILDeclRef)
    (buffer : String) (expansion : ResilienceExpansion) : Option String :=
  if buffer.isEmpty then mangleConstant ctx mangler c expansion else none

/-! ## The table of section 4.1 (specification side) -/

/-- The rows of the table of section 4.1: the declaration shape, the kinds it
requires, and the side conditions the section adds (a function has at least one
argument-clause; a variable is non-local and storage-backed). -/
def tableRow : DeclShape → Kind → Bool
  | .FuncDecl P _ _ _, .Func => decide (1 ≤ P)
  | .ConstructorDecl, .Allocator => true
  | .ConstructorDecl, .Initializer => true
  | .EnumElementDecl _, .EnumElement => true
  | .DestructorDecl, .Destroyer => true
  | .DestructorDecl, .Deallocator => true
  | .ClassDecl, .IVarInitializer => true
  | .ClassDecl, .IVarDestroyer => true
  | .VarDecl isLocalContext hasStorage, .GlobalAccessor => !isLocalContext && hasStorage
  | _, _ => false

/-- The "natural curry level" column of the table of section 4.1. -/
def tableNaturalLevel : DeclShape → Nat
  | .FuncDecl P hasLocalCaptures _ _ => P - 1 + (if hasLocalCaptures then 1 else 0)
  | .ConstructorDecl => 1
  | .EnumElementDecl hasPayload => if hasPayload then 1 else 0
  | .DestructorDecl => 0
  | .ClassDecl => 1
  | .VarDecl _ _ => 0
  | .Other => 0

/-- The natural curry level of a base location: the table's level for a declaration,
and for a closure the function row applied to its own argument-clause count and
capture status. -/
def naturalLevelOfLoc (ctx : ASTContext) : Loc → Nat
  | .Decl vd => tableNaturalLevel (ctx.Decls vd).Shape
  | .Closure ACE =>
    (ctx.Closures ACE).ParamPatterns - 1 + (if (ctx.Closures ACE).hasLocalCaptures then 1 else 0)

/-- The base locations the ambiguous-location constructor accepts: a function,
constructor, enum case or destructor declaration, or a closure, where a function or
closure has at least one argument-clause. -/
def acceptedBaseLoc (ctx : ASTContext) : Loc → Bool
  | .Decl vd =>
    match (ctx.Decls vd).Shape with
    | .FuncDecl P _ _ _ => decide (1 ≤ P)
    | .ConstructorDecl => true
    | .EnumElementDecl _ => true
    | .DestructorDecl => true
    | _ => false
  | .Closure ACE => decide (1 ≤ (ctx.Closures ACE).ParamPatterns)

/-- The kind the ambiguous-location constructor infers for an accepted base
location (lines 122-157): `Func` for a function or closure, `Allocator` for a
constructor, `EnumElement` for an enum case, `Deallocator` for a destructor. -/
def inferredKind (ctx : ASTContext) : Loc → Kind
  | .Decl vd =>
    match (ctx.Decls vd).Shape with
    | .ConstructorDecl => Kind.Allocator
    | .EnumElementDecl _ => Kind.EnumElement
    | .DestructorDecl => Kind.Deallocator
    | _ => Kind.Func
  | .Closure _ => Kind.Func

/-- Whether a base location is a constructor declaration. -/
def isConstructorLoc (ctx : ASTContext) : Loc → Bool
  | .Decl vd =>
    match (ctx.Decls vd).Shape with
    | .ConstructorDecl => true
    | _ => false
  | .Closure _ => false

/-! ## The dispatch table of section 4.2 (specification side) -/

/-- One call of a sub-encoder of the mangling facility, with its arguments. -/
inductive EntityCall where
  | closureEntity (ACE : ClosureId) (expansion : ResilienceExpansion) (uncurryLevel : Nat)
  | accessorEntity (letter : Char) (storage : DeclId) (expansion : ResilienceExpansion)
  | entity (decl : DeclId) (expansion : ResilienceExpansion) (uncurryLevel : Nat)
  | destructorEntity (decl : DeclId) (isDeallocating : Bool)
  | constructorEntity (decl : DeclId) (isAllocating : Bool)
      (expansion : ResilienceExpansion) (uncurryLevel : Nat)
  | ivarInitDestroyEntity (decl : DeclId) (isDestroyer : Bool)
  | addressorEntity (decl : DeclId)
  | defaultArgumentEntity (decl : DeclId) (index : Nat)
deriving DecidableEq, Repr

/-- The output of a sub-encoder call. That `run` is injective says that each
sub-encoder is injective in the arguments it is given and that different
sub-encoders never produce the same string. -/
def Mangler.run (mangler : Mangler) : EntityCall → String
  | .closureEntity ACE expansion level => mangler.mangleClosureEntity ACE expansion level
  | .accessorEntity letter storage expansion =>
    mangler.mangleAccessorEntity letter storage expansion
  | .entity decl expansion level => mangler.mangleEntity decl expansion level
  | .destructorEntity decl isDeallocating => mangler.mangleDestructorEntity decl isDeallocating
  | .constructorEntity decl isAllocating expansion level =>
    mangler.mangleConstructorEntity decl isAllocating expansion level
  | .ivarInitDestroyEntity decl isDestroyer =>
    mangler.mangleIVarInitDestroyEntity decl isDestroyer
  | .addressorEntity decl => mangler.mangleAddressorEntity decl
  | .defaultArgumentEntity decl index => mangler.mangleDefaultArgumentEntity decl index

/-- The override bypass of section 4.2: a `PlainFunction` reference with a backing
declaration that carries an explicit external-symbol override, the reference being
neither a thunk nor curried. -/
def usesAsmName (ctx : ASTContext) (c : SILDeclRef) : Bool :=
  match c.kind, c.loc with
  | .Func, .Decl vd =>
    !(ctx.Decls vd).AsmName.isEmpty && !c.isForeignThunk ctx && !c.isCurried
  | _, _ => false

/-- Whether a `PlainFunction` reference with a backing declaration is encoded as an
accessor: the declaration is a function with an accessor role. -/
def isAccessorDecl (ctx : ASTContext) (vd : DeclId) : Bool :=
  match (ctx.Decls vd).Shape with
  | .FuncDecl _ _ A _ => decide (A ≠ AccessorKind.NotAccessor)
  | _ => false

/-- The raw external symbol bypass of section 4.2: an `EnumCaseConstructor`
reference, or a `PlainFunction` one that falls through to the general encoding,
whose declaration is externally defined by a named Clang declaration, the reference
being neither a thunk nor curried. -/
def usesClangName (ctx : ASTContext) (c : SILDeclRef) : Bool :=
  match c.kind, c.loc with
  | .Func, .Decl vd =>
    !isAccessorDecl ctx vd
      && (match (ctx.Decls vd).getClangDecl with
          | some clangDecl => clangDecl.isDeclaratorDecl
          | none => false)
      && !c.isForeignThunk ctx && !c.isCurried
  | .EnumElement, .Decl vd =>
    (match (ctx.Decls vd).getClangDecl with
     | some clangDecl => clangDecl.isDeclaratorDecl
     | none => false)
      && !c.isForeignThunk ctx && !c.isCurried
  | _, _ => false

/-- Either bypass case: the name is not a prefix followed by a sub-encoder output. -/
def usesBypass (ctx : ASTContext) (c : SILDeclRef) : Bool :=
  usesAsmName ctx c || usesClangName ctx c

/-- The dispatch table of section 4.2, step 2, bypasses aside: the sub-encoder a
reference is given to and the arguments passed; `none` where the reference has no
declaration of the class its kind needs. -/
def entityCall (ctx : ASTContext) (c : SILDeclRef) (expansion : ResilienceExpansion) :
    Option EntityCall :=
  match c.kind, c.loc with
  | .Func, .Closure ACE => some (.closureEntity ACE expansion c.uncurryLevel)
  | .Func, .Decl vd =>
    match (ctx.Decls vd).Shape with
    | .FuncDecl _ _ .IsGetter storage => some (.accessorEntity 'g' storage expansion)
    | .FuncDecl _ _ .IsSetter storage => some (.accessorEntity 's' storage expansion)
    | .FuncDecl _ _ .IsWillSet storage => some (.accessorEntity 'w' storage expansion)
    | .FuncDecl _ _ .IsDidSet storage => some (.accessorEntity 'W' storage expansion)
    | _ => some (.entity vd expansion c.uncurryLevel)
  | .EnumElement, .Decl vd => some (.entity vd expansion c.uncurryLevel)
  | .Deallocator, .Decl vd =>
    match (ctx.Decls vd).Shape with
    | .DestructorDecl => some (.destructorEntity vd true)
    | _ => none
  | .Destroyer, .Decl vd =>
    match (ctx.Decls vd).Shape with
    | .DestructorDecl => some (.destructorEntity vd false)
    | _ => none
  | .Allocator, .Decl vd =>
    match (ctx.Decls vd).Shape with
    | .ConstructorDecl => some (.constructorEntity vd true expansion c.uncurryLevel)
    | _ => none
  | .Initializer, .Decl vd =>
    match (ctx.Decls vd).Shape with
    | .ConstructorDecl => some (.constructorEntity vd false expansion c.uncurryLevel)
    | _ => none
  | .IVarInitializer, .Decl vd =>
    match (ctx.Decls vd).Shape with
    | .ClassDecl => some (.ivarInitDestroyEntity vd false)
    | _ => none
  | .IVarDestroyer, .Decl vd =>
    match (ctx.Decls vd).Shape with
    | .ClassDecl => some (.ivarInitDestroyEntity vd true)
    | _ => none
  | .GlobalAccessor, .Decl vd => some (.addressorEntity vd)
  | .DefaultArgGenerator, .Decl vd =>
    match (ctx.Decls vd).Shape with
    | .FuncDecl _ _ _ _ => some (.defaultArgumentEntity vd c.defaultArgIndex)
    | .ConstructorDecl => some (.defaultArgumentEntity vd c.defaultArgIndex)
    | .DestructorDecl => some (.defaultArgumentEntity vd c.defaultArgIndex)
    | _ => none
  | _, .Closure _ => none

/-- The kinds of reference a sub-encoder call can come from. -/
def EntityCall.kinds : EntityCall → List Kind
  | .closureEntity _ _ _ => [Kind.Func]
  | .accessorEntity _ _ _ => [Kind.Func]
  | .entity _ _ _ => [Kind.Func, Kind.EnumElement]
  | .destructorEntity _ isDeallocating =>
    [if isDeallocating then Kind.Deallocator else Kind.Destroyer]
  | .constructorEntity _ isAllocating _ _ =>
    [if isAllocating then Kind.Allocator else Kind.Initializer]
  | .ivarInitDestroyEntity _ isDestroyer =>
    [if isDestroyer then Kind.IVarDestroyer else Kind.IVarInitializer]
  | .addressorEntity _ => [Kind.GlobalAccessor]
  | .defaultArgumentEntity _ _ => [Kind.DefaultArgGenerator]

/-- The origin a sub-encoder call is given: the closure or the declaration of the
reference; an accessor call is given the storage declaration instead. -/
def EntityCall.origin : EntityCall → Option Loc
  | .closureEntity ACE _ _ => some (Loc.Closure ACE)
  | .accessorEntity _ _ _ => none
  | .entity decl _ _ => some (Loc.Decl decl)
  | .destructorEntity decl _ => some (Loc.Decl decl)
  | .constructorEntity decl _ _ _ => some (Loc.Decl decl)
  | .ivarInitDestroyEntity decl _ => some (Loc.Decl decl)
  | .addressorEntity decl => some (Loc.Decl decl)
  | .defaultArgumentEntity decl _ => some (Loc.Decl decl)

/-- The curry level a sub-encoder call is given, when it is given one. -/
def EntityCall.level : EntityCall → Option Nat
  | .closureEntity _ _ level => some level
  | .entity _ _ level => some level
  | .constructorEntity _ _ _ level => some level
  | _ => none

/-- The default-argument index a sub-encoder call is given, when it is given one. -/
def EntityCall.argIndex : EntityCall → Option Nat
  | .defaultArgumentEntity _ index => some index
  | _ => none

/-! ## A concrete mangling facility for the examples -/

/-- The unary code of a number: that many `'1'`, then a `'0'`. -/
def unaryCode (n : Nat) : List Char :=
  List.replicate n '1' ++ ['0']

/-- The code of a list of numbers: the unary codes one after the other. -/
def encodeNats : List Nat → List Char
  | [] => []
  | n :: ns => unaryCode n ++ encodeNats ns

/-- A sub-encoder call as numbers: a tag for the sub-encoder, then the arguments. -/
def EntityCall.code : EntityCall → List Nat
  | .closureEntity ACE expansion level => [0, ACE, expansion, level]
  | .accessorEntity letter storage expansion => [1, letter.toNat, storage, expansion]
  | .entity decl expansion level => [2, decl, expansion, level]
  | .destructorEntity decl isDeallocating => [3, decl, isDeallocating.toNat]
  | .constructorEntity decl isAllocating expansion level =>
    [4, decl, isAllocating.toNat, expansion, level]
  | .ivarInitDestroyEntity decl isDestroyer => [5, decl, isDestroyer.toNat]
  | .addressorEntity decl => [6, decl]
  | .defaultArgumentEntity decl index => [7, decl, index]

/-- A mangling facility whose sub-encoders are injective with disjoint ranges: each
call is written as the unary code of its tag and arguments. -/
def unaryMangler : Mangler where
  mangleClosureEntity := fun ACE expansion level =>
    String.mk (encodeNats (EntityCall.code (.closureEntity ACE expansion level)))
  mangleAccessorEntity := fun letter storage expansion =>
    String.mk (encodeNats (EntityCall.code (.accessorEntity letter storage expansion)))
  mangleEntity := fun decl expansion level =>
    String.mk (encodeNats (EntityCall.code (.entity decl expansion level)))
  mangleDestructorEntity := fun decl isDeallocating =>
    String.mk (encodeNats (EntityCall.code (.destructorEntity decl isDeallocating)))
  mangleConstructorEntity := fun decl isAllocating expansion level =>
    String.mk (encodeNats
      (EntityCall.code (.constructorEntity decl isAllocating expansion level)))
  mangleIVarInitDestroyEntity := fun decl isDestroyer =>
    String.mk (encodeNats (EntityCall.code (.ivarInitDestroyEntity decl isDestroyer)))
  mangleAddressorEntity := fun decl =>
    String.mk (encodeNats (EntityCall.code (.addressorEntity decl)))
  mangleDefaultArgumentEntity := fun decl index =>
    String.mk (encodeNats (EntityCall.code (.defaultArgumentEntity decl index)))

/-- A second mangling facility, still injective with disjoint ranges: `unaryMangler`
except that the general entity of declaration 5 at expansion 0 and level 1 is written
"To" followed by the code of the same entity at level 0. -/
def collidingMangler : Mangler :=
  { unaryMangler with
    mangleEntity := fun decl expansion level =>
      if decl = 5 ∧ expansion = 0 ∧ level = 1 then
        "To" ++ unaryMangler.mangleEntity 5 0 0
      else unaryMangler.mangleEntity decl expansion level }

/-! ## Example inputs -/

/-- A value for the sentinel `ConstructAtNaturalUncurryLevel` in the examples. -/
def exampleSentinel : Nat := 4294967295

/-- The declarations of the examples: 0 is a two-clause function with a local
capture, 1 a constructor, 2 a class, 3 the two-clause getter of the stored variable 4,
5 an enum case with a payload, 6 a destructor, 7 and 8 two one-clause functions that
both carry the asm name "puts"; no other has an asm name and none has a Clang node.
Every closure has one argument-clause and no capture. -/
def exampleContext : ASTContext where
  Decls := fun d =>
    { Shape :=
        match d with
        | 0 => DeclShape.FuncDecl 2 true AccessorKind.NotAccessor 0
        | 1 => DeclShape.ConstructorDecl
        | 2 => DeclShape.ClassDecl
        | 3 => DeclShape.FuncDecl 2 false AccessorKind.IsGetter 4
        | 4 => DeclShape.VarDecl false true
        | 5 => DeclShape.EnumElementDecl true
        | 6 => DeclShape.DestructorDecl
        | 7 => DeclShape.FuncDecl 1 false AccessorKind.NotAccessor 0
        | 8 => DeclShape.FuncDecl 1 false AccessorKind.NotAccessor 0
        | _ => DeclShape.Other
      AsmName := if d = 7 ∨ d = 8 then "puts" else ""
      Clang := none }
  Closures := fun _ => { ParamPatterns := 1, hasLocalCaptures := false }

/-- The graph of the cyclic example: every identity is a struct-field-address
instruction, for field 7, of the value `⟨0, 0⟩`; so `⟨0, 0⟩` projects from itself. -/
def selfLoopGraph : ValueGraph :=
  fun _ => ValueBase.StructElementAddrInst ⟨0, 0⟩ 7

/-- The graph of scenario C: identity 1 is the struct-field-address projection, for
field 5, of the value `⟨0, 0⟩`, and everything else is a plain value. -/
def scenarioCGraph : ValueGraph :=
  fun n => if n = 1 then ValueBase.StructElementAddrInst ⟨0, 0⟩ 5 else ValueBase.Other

/-! ## Linkage -/

/-- Modelled from the spec: the enumeration `FormalLinkage` of
`swift/SIL/FormalLinkage.h`, which is not part of the sources: the 4-point lattice
`Private < PublicNonUnique < PublicUnique < Top`. -/
inductive FormalLinkage where
  | Top
  | PublicUnique
  | PublicNonUnique
  | Private
deriving DecidableEq, Repr

/-- Modelled from the spec: the restrictiveness order of section 4.3, `Private` (most)
above `PublicNonUnique` above `PublicUnique` above `Top` (least), as a rank. -/
def FormalLinkage.restrictiveness : FormalLinkage → Nat
  | .Top => 0
  | .PublicUnique => 1
  | .PublicNonUnique => 2
  | .Private => 3

/-- Modelled from the spec: the merge operator `^=` of `swift/SIL/FormalLinkage.h`,
which is not part of the sources: `merge(Top, x) = x`; otherwise the more
restrictive of the two operands wins. -/
def FormalLinkage.merge (lhs rhs : FormalLinkage) : FormalLinkage :=
  match lhs with
  | .Top => rhs
  | _ => if rhs.restrictiveness ≤ lhs.restrictiveness then lhs else rhs

/-- Identity of a declaration context: a `DeclContext *`. -/
abbrev DeclContextId := Nat

/-- What `getDeclLinkage` reads of a declaration context: whether it is a
module-scope context, whether it is a local context, whether it is a
`ClangModuleUnit`, and its parent. -/
structure DeclContext where
  isModuleScopeContext : Bool
  isLocalContext : Bool
  isClangModuleUnit : Bool
  Parent : DeclContextId
deriving DecidableEq, Repr

/-- The declaration contexts behind the pointers: the context of each declaration
(`Decl::getDeclContext`) and the facts of each context. -/
structure ContextTable where
  DeclContextOf : DeclId → DeclContextId
  Contexts : DeclContextId → DeclContext

/-- The `while` loop of `getDeclLinkage` and the code after it (lines 367-379),
started at the context `DC`; `none` when the fuel, one unit per test of the loop
condition, does not reach a `return`. -/
def declContextWalk (tbl : ContextTable) : Nat → DeclContextId → Option FormalLinkage
  | 0, _ => none
  | fuel + 1, DC =>
    if !(tbl.Contexts DC).isModuleScopeContext then
      if (tbl.Contexts DC).isLocalContext then
        some FormalLinkage.Private
      else
        declContextWalk tbl fuel (tbl.Contexts DC).Parent
    else if (tbl.Contexts DC).isClangModuleUnit then
      some FormalLinkage.PublicNonUnique
    else
      some FormalLinkage.PublicUnique

/-- The function `swift::getDeclLinkage` (lines 365-380). -/
def getDeclLinkage (tbl : ContextTable) (fuel : Nat) (D : DeclId) : Option FormalLinkage :=
  declContextWalk tbl fuel (tbl.DeclContextOf D)

/-- The structural shape of a canonical type, as `getTypeLinkage` looks at it: a
nominal type with its declaration (`getAnyNominal`), a polymorphic function type
with its generic parameters, each given by the declared types of its protocols and
its superclass if any, or any other type; each with its structural subterms. -/
inductive CanType where
  | Nominal (AnyNominal : DeclId) (Children : List CanType)
  | PolymorphicFunction (GenericParameters : List (List CanType × Option CanType))
      (Children : List CanType)
  | Other (Children : List CanType)

mutual
/-- The traversal `type.findIf` of `getTypeLinkage` with the visitor of lines 386-401,
which never stops the search: the visitor runs on the type, then the traversal goes
through its subterms; `result` is the captured variable. Modelled from the spec: the
traversal order of `Type::findIf`, which is not part of the sources, visiting every
subterm of the structural shape. -/
def findIfLinkage (tbl : ContextTable) (fuel : Nat) : CanType → FormalLinkage →
    Option FormalLinkage
  | .Nominal nominal Children, result =>
    match getDeclLinkage tbl fuel nominal with
    | none => none
    | some linkage => findIfLinkageList tbl fuel Children (result.merge linkage)
  | .PolymorphicFunction GenericParameters Children, result =>
    match genericClauseLoop tbl fuel GenericParameters FormalLinkage.Top with
    | none => none
    | some linkage => findIfLinkageList tbl fuel Children (result.merge linkage)
  | .Other Children, result => findIfLinkageList tbl fuel Children result
/-- The traversal of `findIfLinkage` through a list of subterms. -/
def findIfLinkageList (tbl : ContextTable) (fuel : Nat) : List CanType → FormalLinkage →
    Option FormalLinkage
  | [], result => some result
  | T :: Ts, result =>
    match findIfLinkage tbl fuel T result with
    | none => none
    | some result' => findIfLinkageList tbl fuel Ts result'
/-- The outer loop of `getGenericClauseLinkage` (lines 356-361) over the parameters,
with `result` so far; the linkage of a type is its traversal started from `Top`. -/
def genericClauseLoop (tbl : ContextTable) (fuel : Nat) :
    List (List CanType × Option CanType) → FormalLinkage → Option FormalLinkage
  | [], result => some result
  | (Protocols, Superclass) :: params, result =>
    match protocolLoop tbl fuel Protocols result with
    | none => none
    | some result1 =>
      match Superclass with
      | none => genericClauseLoop tbl fuel params result1
      | some superclass =>
        match findIfLinkage tbl fuel superclass FormalLinkage.Top with
        | none => none
        | some linkage => genericClauseLoop tbl fuel params (result1.merge linkage)
/-- The inner loop of `getGenericClauseLinkage` (lines 357-358) over the declared
types of the protocols of one parameter. -/
def protocolLoop (tbl : ContextTable) (fuel : Nat) : List CanType → FormalLinkage →
    Option FormalLinkage
  | [], result => some result
  | proto :: protos, result =>
    match findIfLinkage tbl fuel proto FormalLinkage.Top with
    | none => none
    | some linkage => protocolLoop tbl fuel protos (result.merge linkage)
end

/-- The function `swift::getTypeLinkage` (lines 382-404); the fuel is that of each
call of `getDeclLinkage`. -/
def getTypeLinkage (tbl : ContextTable) (fuel : Nat) (type : CanType) : Option FormalLinkage :=
  findIfLinkage tbl fuel type FormalLinkage.Top

/-- The function `getGenericClauseLinkage` (lines 354-363). -/
def getGenericClauseLinkage (tbl : ContextTable) (fuel : Nat)
    (params : List (List CanType × Option CanType)) : Option FormalLinkage :=
  genericClauseLoop tbl fuel params FormalLinkage.Top

/-- The function `swift::getConformanceLinkage` (lines 406-409). -/
def getConformanceLinkage : FormalLinkage :=
  FormalLinkage.PublicUnique

/-! ### Describing linkage (specification side) -/

/-- The `i`-th context on the enclosing-context chain that starts at `DC`. -/
def contextChain (tbl : ContextTable) : Nat → DeclContextId → DeclContextId
  | 0, DC => DC
  | i + 1, DC => contextChain tbl i (tbl.Contexts DC).Parent

mutual
/-- The nominal type declarations that occur anywhere in the structure of a type:
in the type itself, in its structural subterms, and in the constraint types of the
generic parameters of a polymorphic function type. -/
def nominalsOf : CanType → List DeclId
  | .Nominal nominal Children => nominal :: nominalsOfList Children
  | .PolymorphicFunction GenericParameters Children =>
    nominalsOfParams GenericParameters ++ nominalsOfList Children
  | .Other Children => nominalsOfList Children
/-- The nominal type declarations that occur in a list of types. -/
def nominalsOfList : List CanType → List DeclId
  | [] => []
  | T :: Ts => nominalsOf T ++ nominalsOfList Ts
/-- The nominal type declarations that occur in the constraints of generic parameters. -/
def nominalsOfParams : List (List CanType × Option CanType) → List DeclId
  | [] => []
  | (Protocols, Superclass) :: params =>
    nominalsOfList Protocols
      ++ (match Superclass with
          | none => []
          | some superclass => nominalsOf superclass)
      ++ nominalsOfParams params
end

/-- The linkage contributions of a list of nominal type declarations: the declaration
linkage of each, in order. -/
def linkagesOf (tbl : ContextTable) (fuel : Nat) (Ds : List DeclId) : List FormalLinkage :=
  Ds.filterMap (getDeclLinkage tbl fuel)

/-! ## Default-argument generators -/

/-- The function `SILDeclRef::getDefaultArgGenerator` (lines 177-184). `Default` is the
default-constructed `SILDeclRef` of `SILDeclRef.h`, a parameter: the function
overwrites its `loc`, `kind` and `defaultArgIndex`. -/
def SILDeclRef.getDefaultArgGenerator (Default : SILDeclRef) (loc : Loc)
    (defaultArgIndex : Nat) : SILDeclRef :=
  { Default with loc := loc, kind := Kind.DefaultArgGenerator,
                 defaultArgIndex := defaultArgIndex }

/-- Whether a declaration is an `AbstractFunctionDecl`: a function, constructor or
destructor declaration. -/
def DeclShape.isAbstractFunctionDecl : DeclShape → Bool
  | .FuncDecl _ _ _ _ => true
  | .ConstructorDecl => true
  | .DestructorDecl => true
  | _ => false

/-! ## Example inputs for linkage and imported declarations -/

/-- A default-constructed reference for the examples: every numeric field and flag
zero, kind `Func`. -/
def exampleDefault : SILDeclRef :=
  { loc := Loc.Decl 0, kind := Kind.Func, uncurryLevel := 0, isCurried := false,
    isForeign := false, defaultArgIndex := 0 }

/-- Declarations imported from Clang: 0 is a one-clause function whose Clang
declaration is a declarator named "puts" without asm label, 1 the same with the asm
label "fputs_alias", 2 an enum case without payload whose Clang declaration, an enum
constant, is not a declarator. No declaration has an asm name; other identities are
plain declarations without Clang node. -/
def importedContext : ASTContext where
  Decls := fun d =>
    match d with
    | 0 => { Shape := DeclShape.FuncDecl 1 false AccessorKind.NotAccessor 0, AsmName := "",
             Clang := some (ClangNode.Decl
               { isDeclaratorDecl := true, AsmLabel := none, Name := "puts" }) }
    | 1 => { Shape := DeclShape.FuncDecl 1 false AccessorKind.NotAccessor 0, AsmName := "",
             Clang := some (ClangNode.Decl
               { isDeclaratorDecl := true, AsmLabel := some "fputs_alias", Name := "fputs" }) }
    | 2 => { Shape := DeclShape.EnumElementDecl false, AsmName := "",
             Clang := some (ClangNode.Decl
               { isDeclaratorDecl := false, AsmLabel := none, Name := "Red" }) }
    | _ => { Shape := DeclShape.Other, AsmName := "", Clang := none }
  Closures := fun _ => { ParamPatterns := 1, hasLocalCaptures := false }

/-- Declaration contexts for the examples; the context of declaration `d` is context
`d`. Context 0 is a source file of the module, 1 a Clang module unit, 2 a function
body inside 0, 3 a type inside the function body 2, 4 a type inside the source file
0; every other context is its own parent and neither module-scope nor local. -/
def exampleContexts : ContextTable where
  DeclContextOf := fun d => d
  Contexts := fun c =>
    match c with
    | 0 => { isModuleScopeContext := true, isLocalContext := false,
             isClangModuleUnit := false, Parent := 0 }
    | 1 => { isModuleScopeContext := true, isLocalContext := false,
             isClangModuleUnit := true, Parent := 1 }
    | 2 => { isModuleScopeContext := false, isLocalContext := true,
             isClangModuleUnit := false, Parent := 0 }
    | 3 => { isModuleScopeContext := false, isLocalContext := false,
             isClangModuleUnit := false, Parent := 2 }
    | 4 => { isModuleScopeContext := false, isLocalContext := false,
             isClangModuleUnit := false, Parent := 0 }
    | n + 5 => { isModuleScopeContext := false, isLocalContext := false,
                 isClangModuleUnit := false, Parent := n + 5 }

/-- A type for the examples: the nominal type 4 applied to the imported nominal type 1
and to a polymorphic function type whose one generic parameter conforms to the
protocol type 0. -/
def exampleType : CanType :=
  CanType.Nominal 4
    [CanType.Nominal 1 [],
     CanType.PolymorphicFunction [([CanType.Nominal 0 []], none)] [CanType.Other []]]

/-! ## Theorems: the projection path finder -/

theorem isAddressProjection_eq_isSome (G : ValueGraph) (V : SILValue) :
    isAddressProjection G V = (projectionStep G V).isSome := by
  unfold isAddressProjection projectionStep
  cases G V.Def <;> rfl

theorem projectionWalk_step (G : ValueGraph) (V1 Iter Op : SILValue) (P : Projection)
    (fuel : Nat) (Path : List Projection)
    (hstep : projectionStep G Iter = some (P, Op)) (hne : V1 ≠ Iter) :
    projectionWalk G V1 (fuel + 1) Iter Path
      = projectionWalk G V1 fuel Op (Path ++ [P]) := by
  have hproj : isAddressProjection G Iter = true := by
    rw [isAddressProjection_eq_isSome, hstep]; rfl
  unfold projectionStep at hstep
  rw [projectionWalk]
  simp only [hproj, bne_iff_ne, ne_eq, hne, not_false_eq_true, decide_True, Bool.and_self,
    if_true]
  cases hG : G Iter.Def <;> rw [hG] at hstep <;> simp at hstep <;>
    obtain ⟨rfl, rfl⟩ := hstep <;> simp [hne]

theorem projectionWalk_stop_at_V1 (G : ValueGraph) (V1 : SILValue) (fuel : Nat)
    (Path : List Projection) :
    projectionWalk G V1 (fuel + 1) V1 Path = some (V1, Path) := by
  rw [projectionWalk]
  simp

theorem projectionWalk_stop_at_root (G : ValueGraph) (V1 Iter : SILValue) (fuel : Nat)
    (Path : List Projection) (hroot : projectionStep G Iter = none) :
    projectionWalk G V1 (fuel + 1) Iter Path = some (Iter, Path) := by
  have hproj : isAddressProjection G Iter = false := by
    rw [isAddressProjection_eq_isSome, hroot]; rfl
  rw [projectionWalk]
  simp [hproj]

theorem followChain_succ (G : ValueGraph) (k : Nat) (V Op : SILValue) (P : Projection)
    (hstep : projectionStep G V = some (P, Op)) :
    followChain G (k + 1) V
      = (followChain G k Op).map (fun r => (P :: r.1, r.2)) := by
  rw [followChain, hstep]
  cases hrec : followChain G k Op <;> simp [hrec]

theorem followChain_length (G : ValueGraph) :
    ∀ (k : Nat) (V R : SILValue) (Ps : List Projection),
      followChain G k V = some (Ps, R) → Ps.length = k := by
  intro k
  induction k with
  | zero =>
    intro V R Ps h
    simp [followChain] at h
    simp [← h.1]
  | succ k ih =>
    intro V R Ps h
    cases hstep : projectionStep G V with
    | none => simp [followChain, hstep] at h
    | some r =>
      obtain ⟨P, Op⟩ := r
      rw [followChain_succ G k V Op P hstep] at h
      cases hrec : followChain G k Op with
      | none => simp [hrec] at h
      | some q =>
        obtain ⟨Qs, W⟩ := q
        simp [hrec] at h
        obtain ⟨rfl, rfl⟩ := h
        simp [ih Op W Qs hrec]

theorem followChain_isSome_of_le (G : ValueGraph) :
    ∀ (k j : Nat) (V : SILValue), j ≤ k → (followChain G k V).isSome →
      (followChain G j V).isSome := by
  intro k
  induction k with
  | zero =>
    intro j V hj h
    have : j = 0 := by omega
    subst this
    exact h
  | succ k ih =>
    intro j V hj h
    cases j with
    | zero => simp [followChain]
    | succ j =>
      cases hstep : projectionStep G V with
      | none => simp [followChain, hstep] at h
      | some r =>
        obtain ⟨P, Op⟩ := r
        rw [followChain_succ G k V Op P hstep] at h
        rw [followChain_succ G j V Op P hstep]
        simp only [Option.isSome_map'] at h ⊢
        exact ih j Op (by omega) h

theorem chainValues_succ (G : ValueGraph) (k : Nat) (V Op : SILValue) (P : Projection)
    (hstep : projectionStep G V = some (P, Op)) :
    chainValues G (k + 1) V = V :: chainValues G k Op := by
  rw [chainValues, hstep]

/-- Along a chain of `k` address-projection instructions from `Iter` to `V1` that
does not meet `V1` before its end, the loop records the `k` projections in order
and exits with the cursor on `V1`. -/
theorem projectionWalk_along_chain (G : ValueGraph) (V1 : SILValue) :
    ∀ (k : Nat) (Iter : SILValue) (Ps Path : List Projection) (fuel : Nat),
      followChain G k Iter = some (Ps, V1) →
      V1 ∉ chainValues G k Iter →
      k < fuel →
      projectionWalk G V1 fuel Iter Path = some (V1, Path ++ Ps) := by
  intro k
  induction k with
  | zero =>
    intro Iter Ps Path fuel h _ hfuel
    simp [followChain] at h
    obtain ⟨rfl, rfl⟩ := h
    obtain ⟨f, rfl⟩ : ∃ f, fuel = f + 1 := ⟨fuel - 1, by omega⟩
    simp [projectionWalk_stop_at_V1]
  | succ k ih =>
    intro Iter Ps Path fuel h hfirst hfuel
    obtain ⟨f, rfl⟩ : ∃ f, fuel = f + 1 := ⟨fuel - 1, by omega⟩
    cases hstep : projectionStep G Iter with
    | none => simp [followChain, hstep] at h
    | some r =>
      obtain ⟨P, Op⟩ := r
      rw [followChain_succ G k Iter Op P hstep] at h
      rw [chainValues_succ G k Iter Op P hstep, List.mem_cons, not_or] at hfirst
      cases hrec : followChain G k Op with
      | none => simp [hrec] at h
      | some q =>
        obtain ⟨Qs, W⟩ := q
        simp [hrec] at h
        obtain ⟨rfl, rfl⟩ := h
        rw [projectionWalk_step G W Iter Op P f Path hstep hfirst.1]
        rw [ih Op Qs (Path ++ [P]) f hrec hfirst.2 (by omega)]
        simp

/-- Whenever `V1` lies on the chain of projections from `Iter`, the loop exits with
the cursor on `V1`, and with at least one entry recorded unless it started there. -/
theorem projectionWalk_reaches (G : ValueGraph) (V1 : SILValue) :
    ∀ (k : Nat) (Iter : SILValue) (Ps Path : List Projection) (fuel : Nat),
      followChain G k Iter = some (Ps, V1) → k < fuel →
      ∃ Qs, projectionWalk G V1 fuel Iter Path = some (V1, Path ++ Qs)
        ∧ (V1 ≠ Iter → Qs ≠ []) := by
  intro k
  induction k with
  | zero =>
    intro Iter Ps Path fuel h hfuel
    simp [followChain] at h
    obtain ⟨rfl, rfl⟩ := h
    obtain ⟨f, rfl⟩ : ∃ f, fuel = f + 1 := ⟨fuel - 1, by omega⟩
    exact ⟨[], by simp [projectionWalk_stop_at_V1], fun h => absurd rfl h⟩
  | succ k ih =>
    intro Iter Ps Path fuel h hfuel
    obtain ⟨f, rfl⟩ : ∃ f, fuel = f + 1 := ⟨fuel - 1, by omega⟩
    by_cases hV : V1 = Iter
    · subst hV
      exact ⟨[], by simp [projectionWalk_stop_at_V1], fun h => absurd rfl h⟩
    · cases hstep : projectionStep G Iter with
      | none => simp [followChain, hstep] at h
      | some r =>
        obtain ⟨P, Op⟩ := r
        rw [followChain_succ G k Iter Op P hstep] at h
        cases hrec : followChain G k Op with
        | none => simp [hrec] at h
        | some q =>
          obtain ⟨Qs, W⟩ := q
          simp [hrec] at h
          obtain ⟨rfl, rfl⟩ := h
          obtain ⟨Rs, hRs, _⟩ := ih Op Qs (Path ++ [P]) f hrec (by omega)
          refine ⟨P :: Rs, ?_, fun _ => by simp⟩
          rw [projectionWalk_step G W Iter Op P f Path hstep hV, hRs]
          simp

/-- The `i`-th entry of the projections of a chain describes the `i`-th instruction
of the chain, and the last instruction has the end of the chain as its operand. -/
theorem followChain_entry (G : ValueGraph) :
    ∀ (k : Nat) (V R : SILValue) (Ps : List Projection),
      followChain G k V = some (Ps, R) →
      ∀ i, i < k → ∃ Qs W P Op, followChain G i V = some (Qs, W)
        ∧ projectionStep G W = some (P, Op) ∧ Ps[i]? = some P ∧ (i + 1 = k → Op = R) := by
  intro k
  induction k with
  | zero =>
    intro V R Ps _ i hi
    omega
  | succ k ih =>
    intro V R Ps h i hi
    cases hstep : projectionStep G V with
    | none => simp [followChain, hstep] at h
    | some r =>
      obtain ⟨P, Op⟩ := r
      rw [followChain_succ G k V Op P hstep] at h
      cases hrec : followChain G k Op with
      | none => simp [hrec] at h
      | some q =>
        obtain ⟨Qs, W⟩ := q
        simp [hrec] at h
        obtain ⟨rfl, rfl⟩ := h
        cases i with
        | zero =>
          refine ⟨[], V, P, Op, by simp [followChain], hstep, by simp, ?_⟩
          intro hk
          have : k = 0 := by omega
          subst this
          simp [followChain] at hrec
          exact hrec.2
        | succ i =>
          obtain ⟨Rs, U, Q, Op', hU, hQ, hget, hlast⟩ := ih Op W Qs hrec i (by omega)
          refine ⟨P :: Rs, U, Q, Op', ?_, hQ, by simpa using hget, fun hk => hlast (by omega)⟩
          rw [followChain_succ G i V Op P hstep, hU]
          rfl

/-- Whatever the loop returns lies on the chain from its start: the cursor is
reached by following some number of projection instructions, and the path is the
initial one followed by their projections. -/
theorem projectionWalk_sound (G : ValueGraph) (V1 : SILValue) :
    ∀ (fuel : Nat) (Iter Last : SILValue) (Path Path' : List Projection),
      projectionWalk G V1 fuel Iter Path = some (Last, Path') →
      ∃ j Qs, followChain G j Iter = some (Qs, Last) ∧ Path' = Path ++ Qs
        ∧ (isAddressProjection G Last = false ∨ Last = V1) := by
  intro fuel
  induction fuel with
  | zero =>
    intro Iter Last Path Path' h
    simp [projectionWalk] at h
  | succ f ih =>
    intro Iter Last Path Path' h
    by_cases hV : V1 = Iter
    · subst hV
      rw [projectionWalk_stop_at_V1] at h
      simp at h
      obtain ⟨rfl, rfl⟩ := h
      exact ⟨0, [], by simp [followChain], by simp, Or.inr rfl⟩
    · cases hstep : projectionStep G Iter with
      | none =>
        rw [projectionWalk_stop_at_root G V1 Iter f Path hstep] at h
        simp at h
        obtain ⟨rfl, rfl⟩ := h
        refine ⟨0, [], by simp [followChain], by simp, Or.inl ?_⟩
        rw [isAddressProjection_eq_isSome, hstep]; rfl
      | some r =>
        obtain ⟨P, Op⟩ := r
        rw [projectionWalk_step G V1 Iter Op P f Path hstep hV] at h
        obtain ⟨j, Qs, hj, hpath, hlast⟩ := ih Op Last (Path ++ [P]) Path' h
        refine ⟨j + 1, P :: Qs, ?_, by simp [hpath], hlast⟩
        rw [followChain_succ G j Iter Op P hstep, hj]
        rfl

/-- When the chain of projections from `Iter` has fewer than `n` instructions, the
loop exits within `n` evaluations of its condition. -/
theorem projectionWalk_terminates (G : ValueGraph) (V1 : SILValue) :
    ∀ (n : Nat) (Iter : SILValue) (Path : List Projection) (fuel : Nat),
      followChain G n Iter = none → n ≤ fuel →
      (projectionWalk G V1 fuel Iter Path).isSome := by
  intro n
  induction n with
  | zero =>
    intro Iter Path fuel h _
    simp [followChain] at h
  | succ n ih =>
    intro Iter Path fuel h hfuel
    obtain ⟨f, rfl⟩ : ∃ f, fuel = f + 1 := ⟨fuel - 1, by omega⟩
    by_cases hV : V1 = Iter
    · subst hV
      simp [projectionWalk_stop_at_V1]
    · cases hstep : projectionStep G Iter with
      | none => simp [projectionWalk_stop_at_root G V1 Iter f Path hstep]
      | some r =>
        obtain ⟨P, Op⟩ := r
        rw [projectionWalk_step G V1 Iter Op P f Path hstep hV]
        apply ih Op (Path ++ [P]) f _ (by omega)
        rw [followChain_succ G n Iter Op P hstep] at h
        simpa using h

theorem reconstructs_append (G : ValueGraph) :
    ∀ (As Bs : List Projection) (V U W : SILValue),
      reconstructs G V As U → reconstructs G U Bs W → reconstructs G V (As ++ Bs) W := by
  intro As
  induction As with
  | nil =>
    intro Bs V U W h1 h2
    simp only [reconstructs] at h1
    subst h1
    simpa using h2
  | cons A As ih =>
    intro Bs V U W h1 h2
    obtain ⟨X, hX, hrest⟩ := h1
    exact ⟨X, hX, ih Bs X U W hrest h2⟩

theorem followChain_reconstructs (G : ValueGraph) :
    ∀ (k : Nat) (V R : SILValue) (Ps : List Projection),
      followChain G k V = some (Ps, R) → reconstructs G R Ps.reverse V := by
  intro k
  induction k with
  | zero =>
    intro V R Ps h
    simp [followChain] at h
    obtain ⟨rfl, rfl⟩ := h
    simp [reconstructs]
  | succ k ih =>
    intro V R Ps h
    cases hstep : projectionStep G V with
    | none => simp [followChain, hstep] at h
    | some r =>
      obtain ⟨P, Op⟩ := r
      rw [followChain_succ G k V Op P hstep] at h
      cases hrec : followChain G k Op with
      | none => simp [hrec] at h
      | some q =>
        obtain ⟨Qs, W⟩ := q
        simp [hrec] at h
        obtain ⟨rfl, rfl⟩ := h
        rw [List.reverse_cons]
        apply reconstructs_append G Qs.reverse [P] W Op V (ih Op W Qs hrec)
        exact ⟨V, hstep, rfl⟩

/-! ### Claims about `findAddressProjectionPathBetweenValues` -/

/-- C1 (as stated, refuted): in the graph where the value `⟨0, 0⟩` is the
struct-field-address projection of itself, `V2 = ⟨0, 0⟩` is defined by a chain of
exactly one address-projection instruction whose operand is `V1 = ⟨0, 0⟩`, yet the
call returns true with an empty path, not with the one entry of the chain. -/
theorem C1_counterexample_projection_cycle :
    followChain selfLoopGraph 1 ⟨0, 0⟩ = some ([Projection.StructField 7], ⟨0, 0⟩)
    ∧ findAddressProjectionPathBetweenValues selfLoopGraph 2 ⟨0, 0⟩ ⟨0, 0⟩ []
        = some (true, [])
    ∧ ¬ (∃ Path, findAddressProjectionPathBetweenValues selfLoopGraph 2 ⟨0, 0⟩ ⟨0, 0⟩ []
          = some (true, Path) ∧ Path.length = 1) := by
  refine ⟨rfl, rfl, ?_⟩
  rintro ⟨Path, h, hlen⟩
  have h2 : findAddressProjectionPathBetweenValues selfLoopGraph 2 ⟨0, 0⟩ ⟨0, 0⟩ []
      = some (true, []) := rfl
  rw [h2] at h
  simp at h
  subst h
  simp at hlen

/-- C1 (amended): when `V2` is defined by a chain of exactly `k ≥ 1` address-projection
instructions whose innermost operand is `V1`, and `V1` is none of the `k` values these
instructions define (as in every graph without a cycle of projections), the call
with an empty path and more than `k` units of fuel returns true and leaves the `k`
projections of the chain in `Path`: entry `i` describes the `i`-th instruction counted
from `V2`, the last one has operand `V1`, and applying the entries in reverse order
starting at `V1` reconstructs `V2`. -/
theorem C1_path_along_projection_chain (G : ValueGraph) (k : Nat) (V1 V2 : SILValue)
    (Ps : List Projection) (fuel : Nat)
    (hk : 1 ≤ k) (hchain : followChain G k V2 = some (Ps, V1))
    (hfirst : V1 ∉ chainValues G k V2) (hfuel : k < fuel) :
    findAddressProjectionPathBetweenValues G fuel V1 V2 [] = some (true, Ps)
    ∧ Ps.length = k
    ∧ (∀ i, i < k → ∃ Qs W P Op, followChain G i V2 = some (Qs, W)
        ∧ projectionStep G W = some (P, Op) ∧ Ps[i]? = some P ∧ (i + 1 = k → Op = V1))
    ∧ reconstructs G V1 Ps.reverse V2 := by
  have hlen := followChain_length G k V2 V1 Ps hchain
  have hne : V1 ≠ V2 := by
    intro heq
    apply hfirst
    obtain ⟨j, rfl⟩ : ∃ j, k = j + 1 := ⟨k - 1, by omega⟩
    rw [chainValues, heq]
    exact List.mem_cons_self _ _
  refine ⟨?_, hlen, followChain_entry G k V2 V1 Ps hchain,
    followChain_reconstructs G k V2 V1 Ps hchain⟩
  have hwalk := projectionWalk_along_chain G V1 k V2 Ps [] fuel hchain hfirst hfuel
  have hPs : Ps ≠ [] := by
    intro h
    rw [h] at hlen
    simp at hlen
    omega
  unfold findAddressProjectionPathBetweenValues
  rw [if_neg hne, hwalk]
  simp [hPs]

/-- Scenario C, as an instance of C1: `X = ⟨1, 0⟩` is the struct-field-address projection
of the plain value `Y = ⟨0, 0⟩` for field 5; the path from `Y` to `X` is that one
projection. -/
theorem C1_path_along_projection_chain_witness :
    followChain scenarioCGraph 1 ⟨1, 0⟩ = some ([Projection.StructField 5], ⟨0, 0⟩)
    ∧ (⟨0, 0⟩ : SILValue) ∉ chainValues scenarioCGraph 1 ⟨1, 0⟩
    ∧ findAddressProjectionPathBetweenValues scenarioCGraph 2 ⟨0, 0⟩ ⟨1, 0⟩ []
        = some (true, [Projection.StructField 5]) :=
  ⟨rfl, by decide,
    (C1_path_along_projection_chain scenarioCGraph 1 ⟨0, 0⟩ ⟨1, 0⟩
      [Projection.StructField 5] 2 (by decide) rfl (by decide) (by decide)).1⟩

/-- C2: when the chain of projections from `V2` is finite (it has fewer than `n`
instructions), the call with an empty path and at least `n` units of fuel returns,
and it returns true if and only if `V1 = V2` or `V1` is reached from `V2` by walking
back through one or more address-projection instructions along operand 0; in
particular it returns false when the loop stops on a value that no address-projection
instruction defines and that is not `V1`. -/
theorem C2_true_iff_reached (G : ValueGraph) (V1 V2 : SILValue) (n fuel : Nat)
    (hfinite : followChain G n V2 = none) (hfuel : n ≤ fuel) :
    ∃ b Path, findAddressProjectionPathBetweenValues G fuel V1 V2 [] = some (b, Path)
      ∧ (b = true ↔ (V1 = V2 ∨ ∃ k Ps, 1 ≤ k ∧ followChain G k V2 = some (Ps, V1)))
      ∧ (∀ Last Path', projectionWalk G V1 fuel V2 [] = some (Last, Path') →
          isAddressProjection G Last = false → Last ≠ V1 → b = false) := by
  by_cases hV : V1 = V2
  · subst hV
    refine ⟨true, [], by simp [findAddressProjectionPathBetweenValues], by simp, ?_⟩
    intro Last Path' hwalk _ hLast
    exfalso
    obtain ⟨f, rfl⟩ : ∃ f, fuel = f + 1 := by
      cases fuel with
      | zero => simp [projectionWalk] at hwalk
      | succ f => exact ⟨f, rfl⟩
    rw [projectionWalk_stop_at_V1] at hwalk
    simp at hwalk
    exact hLast hwalk.1.symm
  · have hsome := projectionWalk_terminates G V1 n V2 [] fuel hfinite hfuel
    obtain ⟨⟨Last, Path'⟩, hwalk⟩ := Option.isSome_iff_exists.mp hsome
    refine ⟨!Path'.isEmpty && V1 == Last, Path', ?_, ?_, ?_⟩
    · simp [findAddressProjectionPathBetweenValues, hV, hwalk]
    · constructor
      · intro hb
        right
        simp only [Bool.and_eq_true, Bool.not_eq_true', beq_iff_eq] at hb
        obtain ⟨hpath, rfl⟩ := hb
        obtain ⟨j, Qs, hj, hQs, _⟩ := projectionWalk_sound G V1 fuel V2 V1 [] Path' hwalk
        refine ⟨j, Qs, ?_, hj⟩
        have hlen := followChain_length G j V2 V1 Qs hj
        cases j with
        | zero =>
          simp at hlen
          subst hlen
          simp at hQs
          subst hQs
          simp at hpath
        | succ j => omega
      · rintro (h | ⟨k, Ps, _, hchain⟩)
        · exact absurd h hV
        · have hkn : k < n := by
            by_contra hle
            have := followChain_isSome_of_le G k n V2 (by omega) (by simp [hchain])
            simp [hfinite] at this
          obtain ⟨Qs, hQs, hnonempty⟩ :=
            projectionWalk_reaches G V1 k V2 Ps [] fuel hchain (by omega)
          rw [hQs] at hwalk
          simp at hwalk
          obtain ⟨rfl, rfl⟩ := hwalk
          have := hnonempty hV
          simp [this]
    · intro Last' Path'' hwalk' _ hLast
      rw [hwalk] at hwalk'
      simp at hwalk'
      obtain ⟨rfl, rfl⟩ := hwalk'
      have : (V1 == Last) = false := by
        simp only [beq_eq_false_iff_ne, ne_eq]
        exact fun h => hLast h.symm
      simp [this]

/-- An instance of C2 on the graph of scenario C: the chain from `⟨1, 0⟩` has one
projection, and the call from the unrelated value `⟨2, 0⟩` returns false. -/
theorem C2_true_iff_reached_witness :
    followChain scenarioCGraph 2 ⟨1, 0⟩ = none
    ∧ ∃ b Path, findAddressProjectionPathBetweenValues scenarioCGraph 2 ⟨2, 0⟩ ⟨1, 0⟩ []
        = some (b, Path)
      ∧ (b = true ↔ ((⟨2, 0⟩ : SILValue) = ⟨1, 0⟩
          ∨ ∃ k Ps, 1 ≤ k ∧ followChain scenarioCGraph k ⟨1, 0⟩ = some (Ps, ⟨2, 0⟩)))
      ∧ (∀ Last Path', projectionWalk scenarioCGraph ⟨2, 0⟩ 2 ⟨1, 0⟩ [] = some (Last, Path') →
          isAddressProjection scenarioCGraph Last = false → Last ≠ ⟨2, 0⟩ → b = false) :=
  ⟨rfl, C2_true_iff_reached scenarioCGraph ⟨2, 0⟩ ⟨1, 0⟩ 2 2 rfl (by decide)⟩

/-- C3: for every value `V`, whether or not an address-projection instruction defines
it, and every initial `Path`, the call with `V1 = V2 = V` returns true, for any amount
of fuel, and leaves `Path` as it was; so the path is empty when it was empty. -/
theorem C3_same_value_trivial_path (G : ValueGraph) (fuel : Nat) (V : SILValue)
    (Path : List Projection) :
    findAddressProjectionPathBetweenValues G fuel V V Path = some (true, Path)
    ∧ findAddressProjectionPathBetweenValues G fuel V V [] = some (true, []) := by
  simp [findAddressProjectionPathBetweenValues]

/-! ## Theorems: `SILDeclRef` construction -/

theorem setUncurryLevel_sentinel (S natural : Nat) :
    setUncurryLevel S S natural = some (natural, false) := by
  simp [setUncurryLevel]

theorem setUncurryLevel_explicit (S L natural : Nat) (hL : L ≠ S) :
    setUncurryLevel S L natural
      = if L ≤ natural then some (L, decide (L ≠ natural)) else none := by
  unfold setUncurryLevel
  by_cases hle : L ≤ natural
  · simp [hL, hle, bne]
    by_cases h : L = natural <;> simp [h]
  · simp [hL, hle]

theorem getFuncNaturalUncurryLevel_eq (P : Nat) (Captures : Bool) :
    getFuncNaturalUncurryLevel P Captures
      = if 1 ≤ P then some (P - 1 + (if Captures then 1 else 0)) else none := by
  unfold getFuncNaturalUncurryLevel
  by_cases hP : 1 ≤ P <;> cases Captures <;> simp [hP]

/-- The four-argument constructor in closed form: it succeeds exactly on the rows of
the table, with the table's natural level passed to the level check. -/
theorem ofValueDecl_eq (ctx : ASTContext) (S : Nat) (vd : DeclId) (kind : Kind)
    (L : Nat) (f : Bool) :
    SILDeclRef.ofValueDecl ctx S vd kind L f
      = if tableRow (ctx.Decls vd).Shape kind then
          (setUncurryLevel S L (tableNaturalLevel (ctx.Decls vd).Shape)).map
            (fun r => { loc := Loc.Decl vd, kind := kind, uncurryLevel := r.1,
                        isCurried := r.2, isForeign := f, defaultArgIndex := 0 })
        else none := by
  unfold SILDeclRef.ofValueDecl
  cases hshape : (ctx.Decls vd).Shape with
  | FuncDecl P C A St =>
    cases kind <;> simp [tableRow, tableNaturalLevel, getFuncNaturalUncurryLevel_eq]
    by_cases hP : 1 ≤ P
    · simp [hP]
      cases setUncurryLevel S L (P - 1 + if C = true then 1 else 0) <;> simp
    · simp [hP]
  | VarDecl lc st =>
    cases kind <;> cases lc <;> cases st <;> simp [tableRow, tableNaturalLevel]
    cases setUncurryLevel S L 0 <;> simp
  | Other => cases kind <;> simp [tableRow]
  | EnumElementDecl a =>
    cases kind <;> simp [tableRow, tableNaturalLevel]
    cases setUncurryLevel S L (if a = true then 1 else 0) <;> simp
  | ConstructorDecl =>
    cases kind <;> simp [tableRow, tableNaturalLevel] <;>
      cases setUncurryLevel S L 1 <;> simp
  | DestructorDecl =>
    cases kind <;> simp [tableRow, tableNaturalLevel] <;>
      cases setUncurryLevel S L 0 <;> simp
  | ClassDecl =>
    cases kind <;> simp [tableRow, tableNaturalLevel] <;>
      cases setUncurryLevel S L 1 <;> simp

/-- The ambiguous-location constructor in closed form: it succeeds exactly on the
accepted base locations, with the inferred kind, the natural level of the location
passed to the level check, and the foreign flag forced off for a constructor. -/
theorem ofLoc_eq (ctx : ASTContext) (S : Nat) (baseLoc : Loc) (L : Nat) (f : Bool) :
    SILDeclRef.ofLoc ctx S baseLoc L f
      = if acceptedBaseLoc ctx baseLoc then
          (setUncurryLevel S L (naturalLevelOfLoc ctx baseLoc)).map
            (fun r => { loc := baseLoc, kind := inferredKind ctx baseLoc, uncurryLevel := r.1,
                        isCurried := r.2,
                        isForeign := if isConstructorLoc ctx baseLoc then false else f,
                        defaultArgIndex := 0 })
        else none := by
  unfold SILDeclRef.ofLoc
  cases baseLoc with
  | Closure ACE =>
    simp only [acceptedBaseLoc, naturalLevelOfLoc, inferredKind, isConstructorLoc,
      getFuncNaturalUncurryLevel_eq]
    by_cases hP : 1 ≤ (ctx.Closures ACE).ParamPatterns
    · simp [hP]
      cases setUncurryLevel S L ((ctx.Closures ACE).ParamPatterns - 1
        + if (ctx.Closures ACE).hasLocalCaptures = true then 1 else 0) <;> simp
    · simp [hP]
  | Decl vd =>
    simp only [acceptedBaseLoc, naturalLevelOfLoc, inferredKind, isConstructorLoc]
    obtain ⟨sh, hsh⟩ : ∃ sh, (ctx.Decls vd).Shape = sh := ⟨_, rfl⟩
    simp only [hsh]
    cases sh with
    | FuncDecl P C A St =>
      simp [tableNaturalLevel, getFuncNaturalUncurryLevel_eq]
      by_cases hP : 1 ≤ P
      · simp [hP]
        cases setUncurryLevel S L (P - 1 + if C = true then 1 else 0) <;> simp
      · simp [hP]
    | VarDecl lc st => simp
    | Other => simp
    | ClassDecl => simp
    | EnumElementDecl a =>
      simp [tableNaturalLevel]
      cases setUncurryLevel S L (if a = true then 1 else 0) <;> simp
    | ConstructorDecl =>
      simp [tableNaturalLevel]
      cases setUncurryLevel S L 1 <;> simp
    | DestructorDecl =>
      simp [tableNaturalLevel]
      cases setUncurryLevel S L 0 <;> simp

theorem isForeignThunk_of_isForeign (ctx : ASTContext) (c : SILDeclRef)
    (h : c.isForeign = true) : c.isForeignThunk ctx = false := by
  unfold SILDeclRef.isForeignThunk
  cases c.loc <;> simp [h]

/-- C5: the stored foreign flag and `isForeignThunk()` are never both true, and the
prefix `mangleConstant` chooses is "_TTo" exactly when `isForeign` is set, "_TTO"
exactly when `isForeignThunk()` holds, and "_T" exactly when neither does. -/
theorem C5_prefix_exhaustive_exclusive (ctx : ASTContext) (c : SILDeclRef) :
    ¬ (c.isForeign = true ∧ c.isForeignThunk ctx = true)
    ∧ (introducer ctx c = "_TTo" ↔ c.isForeign = true)
    ∧ (introducer ctx c = "_TTO" ↔ c.isForeignThunk ctx = true)
    ∧ (introducer ctx c = "_T" ↔ (c.isForeign = false ∧ c.isForeignThunk ctx = false)) := by
  unfold introducer
  cases hf : c.isForeign
  · cases ht : c.isForeignThunk ctx <;> simp
  · have ht := isForeignThunk_of_isForeign ctx c hf
    simp [ht]

/-- C6: for either constructor, a declaration or closure that the constructor accepts
(the call with the sentinel succeeds, storing the natural level with `isCurried`
false), and a requested level `L` other than the sentinel: construction succeeds if
and only if `L` is at most the natural level, and then the stored level is `L`, with
`isCurried` false when `L` equals the natural level and true when it is below. -/
theorem C6_requested_curry_level (ctx : ASTContext) (S L : Nat) (hL : L ≠ S) :
    (∀ vd kind f r0, SILDeclRef.ofValueDecl ctx S vd kind S f = some r0 →
      r0.uncurryLevel = tableNaturalLevel (ctx.Decls vd).Shape ∧ r0.isCurried = false
      ∧ ((SILDeclRef.ofValueDecl ctx S vd kind L f).isSome ↔ L ≤ r0.uncurryLevel)
      ∧ (∀ r, SILDeclRef.ofValueDecl ctx S vd kind L f = some r →
          r.uncurryLevel = L ∧ (L = r0.uncurryLevel → r.isCurried = false)
          ∧ (L < r0.uncurryLevel → r.isCurried = true)))
    ∧ (∀ baseLoc f q0, SILDeclRef.ofLoc ctx S baseLoc S f = some q0 →
      q0.uncurryLevel = naturalLevelOfLoc ctx baseLoc ∧ q0.isCurried = false
      ∧ ((SILDeclRef.ofLoc ctx S baseLoc L f).isSome ↔ L ≤ q0.uncurryLevel)
      ∧ (∀ q, SILDeclRef.ofLoc ctx S baseLoc L f = some q →
          q.uncurryLevel = L ∧ (L = q0.uncurryLevel → q.isCurried = false)
          ∧ (L < q0.uncurryLevel → q.isCurried = true))) := by
  constructor
  · intro vd kind f r0 h0
    rw [ofValueDecl_eq] at h0
    rw [ofValueDecl_eq]
    by_cases hrow : tableRow (ctx.Decls vd).Shape kind = true
    · rw [if_pos hrow, setUncurryLevel_sentinel] at h0
      simp at h0
      subst h0
      rw [if_pos hrow, setUncurryLevel_explicit S L _ hL]
      by_cases hle : L ≤ tableNaturalLevel (ctx.Decls vd).Shape
      · simp [hle]
        omega
      · simp [hle]
    · rw [if_neg hrow] at h0
      simp at h0
  · intro baseLoc f q0 h0
    rw [ofLoc_eq] at h0
    rw [ofLoc_eq]
    by_cases hacc : acceptedBaseLoc ctx baseLoc = true
    · rw [if_pos hacc, setUncurryLevel_sentinel] at h0
      simp at h0
      subst h0
      rw [if_pos hacc, setUncurryLevel_explicit S L _ hL]
      by_cases hle : L ≤ naturalLevelOfLoc ctx baseLoc
      · simp [hle]
        omega
      · simp [hle]
    · rw [if_neg hacc] at h0
      simp at h0

/-- An instance of C6: for the two-clause capturing function 0 of the examples the
natural level is 2; requesting level 1 succeeds with `isCurried` true, requesting
level 3 fails. -/
theorem C6_requested_curry_level_witness :
    (1 : Nat) ≠ exampleSentinel
    ∧ SILDeclRef.ofValueDecl exampleContext exampleSentinel 0 Kind.Func exampleSentinel false
        = some { loc := Loc.Decl 0, kind := Kind.Func, uncurryLevel := 2, isCurried := false,
                 isForeign := false, defaultArgIndex := 0 }
    ∧ ((SILDeclRef.ofValueDecl exampleContext exampleSentinel 0 Kind.Func 1 false).isSome
        ↔ 1 ≤ 2) :=
  ⟨by decide, rfl,
    ((C6_requested_curry_level exampleContext exampleSentinel 1 (by decide)).1 0 Kind.Func
      false _ rfl).2.2.1⟩

/-- C7: for a function declaration or closure with `P ≥ 1` argument-clauses,
`getFuncNaturalUncurryLevel` gives `P - 1` without local captures and `P` with them,
and either constructor called with the sentinel stores that level; with 0
argument-clauses the function is rejected by every construction. For two clauses and
a local capture the natural level is 2, and requesting level 1 gives `isCurried`
true. -/
theorem C7_function_natural_level (ctx : ASTContext) (S P : Nat) (Captures : Bool)
    (hP : 1 ≤ P) :
    getFuncNaturalUncurryLevel P Captures = some (if Captures then P else P - 1)
    ∧ getFuncNaturalUncurryLevel 0 Captures = none
    ∧ (∀ vd A St f, (ctx.Decls vd).Shape = DeclShape.FuncDecl P Captures A St →
        (∃ r, SILDeclRef.ofValueDecl ctx S vd Kind.Func S f = some r
          ∧ r.uncurryLevel = (if Captures then P else P - 1) ∧ r.isCurried = false)
        ∧ (∃ r, SILDeclRef.ofLoc ctx S (Loc.Decl vd) S f = some r
          ∧ r.uncurryLevel = (if Captures then P else P - 1) ∧ r.isCurried = false))
    ∧ (∀ ACE f, ctx.Closures ACE = ⟨P, Captures⟩ →
        ∃ r, SILDeclRef.ofLoc ctx S (Loc.Closure ACE) S f = some r
          ∧ r.uncurryLevel = (if Captures then P else P - 1) ∧ r.isCurried = false)
    ∧ (∀ vd C A St kind L f, (ctx.Decls vd).Shape = DeclShape.FuncDecl 0 C A St →
        SILDeclRef.ofValueDecl ctx S vd kind L f = none
        ∧ SILDeclRef.ofLoc ctx S (Loc.Decl vd) L f = none)
    ∧ (∀ ACE L f, (ctx.Closures ACE).ParamPatterns = 0 →
        SILDeclRef.ofLoc ctx S (Loc.Closure ACE) L f = none)
    ∧ getFuncNaturalUncurryLevel 2 true = some 2
    ∧ (S ≠ 1 → ∀ vd A St f, (ctx.Decls vd).Shape = DeclShape.FuncDecl 2 true A St →
        ∃ r, SILDeclRef.ofValueDecl ctx S vd Kind.Func 1 f = some r
          ∧ r.uncurryLevel = 1 ∧ r.isCurried = true) := by
  have hlevel : P - 1 + (if Captures = true then 1 else 0) = if Captures = true then P else P - 1 := by
    cases Captures <;> simp
    omega
  refine ⟨?_, ?_, ?_, ?_, ?_, ?_, ?_, ?_⟩
  · rw [getFuncNaturalUncurryLevel_eq, if_pos hP, hlevel]
  · simp [getFuncNaturalUncurryLevel]
  · intro vd A St f hshape
    constructor
    · rw [ofValueDecl_eq, hshape]
      simp [tableRow, tableNaturalLevel, hP, setUncurryLevel_sentinel, hlevel]
    · rw [ofLoc_eq]
      simp [acceptedBaseLoc, naturalLevelOfLoc, hshape, tableNaturalLevel, hP,
        setUncurryLevel_sentinel, hlevel]
  · intro ACE f hACE
    rw [ofLoc_eq]
    simp [acceptedBaseLoc, naturalLevelOfLoc, hACE, hP, setUncurryLevel_sentinel, hlevel]
  · intro vd C A St kind L f hshape
    constructor
    · rw [ofValueDecl_eq, hshape]
      cases kind <;> simp [tableRow]
    · rw [ofLoc_eq]
      simp [acceptedBaseLoc, hshape]
  · intro ACE L f hACE
    rw [ofLoc_eq]
    simp [acceptedBaseLoc, hACE]
  · rfl
  · intro hS vd A St f hshape
    rw [ofValueDecl_eq, hshape]
    simp [tableRow, tableNaturalLevel, setUncurryLevel_explicit S 1 _ (Ne.symm hS)]

/-- Scenario B, as an instance of C7: function 0 of the examples has two
argument-clauses and a local capture; its natural level is 2. -/
theorem C7_function_natural_level_witness :
    (1 : Nat) ≤ 2
    ∧ getFuncNaturalUncurryLevel 2 true = some 2
    ∧ ∃ r, SILDeclRef.ofValueDecl exampleContext exampleSentinel 0 Kind.Func 1 false = some r
        ∧ r.uncurryLevel = 1 ∧ r.isCurried = true :=
  ⟨by decide,
    (C7_function_natural_level exampleContext exampleSentinel 2 true (by decide)).1,
    (C7_function_natural_level exampleContext exampleSentinel 2 true (by decide)).2.2.2.2.2.2.2
      (by decide) 0 AccessorKind.NotAccessor 0 false rfl⟩

/-- C8: the four-argument constructor called with the sentinel succeeds if and only
if the declaration shape and the kind form a row of the table of section 4.1; on
success the stored level is the row's natural level, `isCurried` is false, and the
kind, the origin and the foreign flag are stored as passed. -/
theorem C8_explicit_constructor_table (ctx : ASTContext) (S : Nat) (vd : DeclId)
    (kind : Kind) (f : Bool) :
    ((SILDeclRef.ofValueDecl ctx S vd kind S f).isSome
        ↔ tableRow (ctx.Decls vd).Shape kind = true)
    ∧ (∀ r, SILDeclRef.ofValueDecl ctx S vd kind S f = some r →
        r.uncurryLevel = tableNaturalLevel (ctx.Decls vd).Shape
        ∧ r.kind = kind ∧ r.loc = Loc.Decl vd ∧ r.isForeign = f
        ∧ r.isCurried = false ∧ r.defaultArgIndex = 0)
    ∧ tableNaturalLevel DeclShape.ConstructorDecl = 1
    ∧ tableNaturalLevel (DeclShape.EnumElementDecl true) = 1
    ∧ tableNaturalLevel (DeclShape.EnumElementDecl false) = 0
    ∧ tableNaturalLevel DeclShape.DestructorDecl = 0
    ∧ tableNaturalLevel DeclShape.ClassDecl = 1
    ∧ (∀ isLocal hasStorage, tableNaturalLevel (DeclShape.VarDecl isLocal hasStorage) = 0) := by
  rw [ofValueDecl_eq]
  by_cases hrow : tableRow (ctx.Decls vd).Shape kind = true
  · rw [if_pos hrow, setUncurryLevel_sentinel]
    refine ⟨by simp [hrow], ?_, rfl, rfl, rfl, rfl, rfl, fun _ _ => rfl⟩
    intro r hr
    simp at hr
    subst hr
    simp
  · rw [if_neg hrow]
    refine ⟨by simp [hrow], ?_, rfl, rfl, rfl, rfl, rfl, fun _ _ => rfl⟩
    intro r hr
    simp at hr

/-- C9: for a constructor declaration `cd`, the ambiguous-location constructor
succeeds exactly for the sentinel and for the levels up to the natural level 1, and
it yields kind `Allocator`, origin `cd` and the foreign flag false whatever
`asForeign` is; for every other accepted base location (function, enum case,
destructor, closure) the foreign flag equals `asForeign`. -/
theorem C9_constructor_loc_not_foreign (ctx : ASTContext) (S : Nat) (cd : DeclId)
    (L : Nat) (asForeign : Bool)
    (hcd : (ctx.Decls cd).Shape = DeclShape.ConstructorDecl) :
    ((SILDeclRef.ofLoc ctx S (Loc.Decl cd) L asForeign).isSome ↔ (L = S ∨ L ≤ 1))
    ∧ (∀ r, SILDeclRef.ofLoc ctx S (Loc.Decl cd) L asForeign = some r →
        r.kind = Kind.Allocator ∧ r.loc = Loc.Decl cd ∧ r.isForeign = false
        ∧ (L = S → r.uncurryLevel = 1 ∧ r.isCurried = false)
        ∧ (asForeign = true → r.isForeign ≠ asForeign))
    ∧ (∀ baseLoc L' f r, isConstructorLoc ctx baseLoc = false →
        SILDeclRef.ofLoc ctx S baseLoc L' f = some r → r.isForeign = f) := by
  refine ⟨?_, ?_, ?_⟩
  · rw [ofLoc_eq]
    simp only [acceptedBaseLoc, naturalLevelOfLoc, hcd, tableNaturalLevel, if_true,
      Option.isSome_map']
    unfold setUncurryLevel
    by_cases h : L = S ∨ L ≤ 1 <;> simp [h]
  · intro r hr
    rw [ofLoc_eq] at hr
    simp only [acceptedBaseLoc, naturalLevelOfLoc, inferredKind, isConstructorLoc, hcd,
      tableNaturalLevel, if_true] at hr
    unfold setUncurryLevel at hr
    by_cases h : L = S ∨ L ≤ 1
    · simp [h] at hr
      subst hr
      refine ⟨rfl, rfl, rfl, ?_, ?_⟩
      · intro hLS
        simp [hLS]
      · intro hf
        simp [hf]
    · simp [h] at hr
  · intro baseLoc L' f r hnot hr
    rw [ofLoc_eq] at hr
    by_cases hacc : acceptedBaseLoc ctx baseLoc = true
    · rw [if_pos hacc] at hr
      cases hset : setUncurryLevel S L' (naturalLevelOfLoc ctx baseLoc) with
      | none => simp [hset] at hr
      | some q =>
        simp [hset, hnot] at hr
        subst hr
        rfl
    · rw [if_neg hacc] at hr
      simp at hr

/-- An instance of C9: the constructor declaration 1 of the examples, asked for as
foreign at the natural level, gives the non-foreign allocator reference. -/
theorem C9_constructor_loc_not_foreign_witness :
    (exampleContext.Decls 1).Shape = DeclShape.ConstructorDecl
    ∧ SILDeclRef.ofLoc exampleContext exampleSentinel (Loc.Decl 1) exampleSentinel true
        = some { loc := Loc.Decl 1, kind := Kind.Allocator, uncurryLevel := 1,
                 isCurried := false, isForeign := false, defaultArgIndex := 0 }
    ∧ ((SILDeclRef.ofLoc exampleContext exampleSentinel (Loc.Decl 1) exampleSentinel
          true).isSome ↔ (exampleSentinel = exampleSentinel ∨ exampleSentinel ≤ 1)) :=
  ⟨rfl, rfl,
    (C9_constructor_loc_not_foreign exampleContext exampleSentinel 1 exampleSentinel true rfl).1⟩

/-- C10 (as stated, refuted): a class declaration is a shape of the table of section
4.1 (with kind `IVarInitializer`, natural level 1), yet the ambiguous-location
constructor called with the sentinel rejects it, for either foreign flag. -/
theorem C10_counterexample_class_rejected :
    (exampleContext.Decls 2).Shape = DeclShape.ClassDecl
    ∧ tableRow (exampleContext.Decls 2).Shape Kind.IVarInitializer = true
    ∧ SILDeclRef.ofLoc exampleContext exampleSentinel (Loc.Decl 2) exampleSentinel false = none
    ∧ SILDeclRef.ofLoc exampleContext exampleSentinel (Loc.Decl 2) exampleSentinel true = none :=
  ⟨rfl, rfl, rfl, rfl⟩

/-- C10 (amended): the ambiguous-location constructor called with the sentinel
succeeds exactly for a base location that is a function (with at least one
argument-clause), constructor, enum case or destructor declaration, or a closure
(with at least one argument-clause); it then yields a kind the table allows for that
shape with that row's natural level, and `Func` with the function row's level for a
closure. Among the table's shapes it rejects the variable declaration and the class
declaration. -/
theorem C10_ambiguous_constructor_dispatch (ctx : ASTContext) (S : Nat) (baseLoc : Loc)
    (f : Bool) :
    ((SILDeclRef.ofLoc ctx S baseLoc S f).isSome ↔ acceptedBaseLoc ctx baseLoc = true)
    ∧ (∀ r, SILDeclRef.ofLoc ctx S baseLoc S f = some r →
        r.loc = baseLoc ∧ r.uncurryLevel = naturalLevelOfLoc ctx baseLoc ∧ r.isCurried = false
        ∧ (∀ vd, baseLoc = Loc.Decl vd →
            tableRow (ctx.Decls vd).Shape r.kind = true
            ∧ r.uncurryLevel = tableNaturalLevel (ctx.Decls vd).Shape)
        ∧ (∀ ACE, baseLoc = Loc.Closure ACE → r.kind = Kind.Func))
    ∧ (∀ vd, baseLoc = Loc.Decl vd →
        ((ctx.Decls vd).Shape = DeclShape.ClassDecl
          ∨ ∃ isLocal hasStorage, (ctx.Decls vd).Shape = DeclShape.VarDecl isLocal hasStorage) →
        SILDeclRef.ofLoc ctx S baseLoc S f = none) := by
  rw [ofLoc_eq]
  refine ⟨?_, ?_, ?_⟩
  · by_cases hacc : acceptedBaseLoc ctx baseLoc = true
    · simp [hacc, setUncurryLevel_sentinel]
    · simp [hacc]
  · intro r hr
    by_cases hacc : acceptedBaseLoc ctx baseLoc = true
    · rw [if_pos hacc, setUncurryLevel_sentinel] at hr
      simp at hr
      subst hr
      refine ⟨rfl, rfl, rfl, ?_, ?_⟩
      · intro vd hvd
        subst hvd
        simp only [acceptedBaseLoc] at hacc
        simp only [inferredKind, naturalLevelOfLoc, and_true]
        obtain ⟨sh, hsh⟩ : ∃ sh, (ctx.Decls vd).Shape = sh := ⟨_, rfl⟩
        simp only [hsh] at hacc ⊢
        cases sh <;> simp_all [tableRow]
      · intro ACE hACE
        subst hACE
        rfl
    · rw [if_neg hacc] at hr
      simp at hr
  · intro vd hvd hshape
    subst hvd
    rcases hshape with h | ⟨a, b, h⟩ <;> simp [acceptedBaseLoc, h]

/-! ## Theorems: symbol names -/

theorem str_append_left_cancel (p a b : String) (h : p ++ a = p ++ b) : a = b := by
  have h' := congrArg String.data h
  simp only [String.data_append] at h'
  exact String.ext (List.append_cancel_left h')

theorem str_no_T (a : String) (hT : ∀ t : String, a ≠ "T" ++ t) (l : List Char) :
    a.data ≠ 'T' :: l := by
  intro h
  apply hT (String.mk l)
  apply String.ext
  simp [h]

theorem introducer_decodable (p1 p2 a b : String)
    (h1 : p1 = "_T" ∨ p1 = "_TTo" ∨ p1 = "_TTO") (h2 : p2 = "_T" ∨ p2 = "_TTo" ∨ p2 = "_TTO")
    (ha : ∀ t : String, a ≠ "T" ++ t) (hb : ∀ t : String, b ≠ "T" ++ t)
    (h : p1 ++ a = p2 ++ b) : p1 = p2 ∧ a = b := by
  have h' := congrArg String.data h
  simp only [String.data_append] at h'
  rcases h1 with rfl | rfl | rfl <;> rcases h2 with rfl | rfl | rfl
  · exact ⟨rfl, str_append_left_cancel _ _ _ h⟩
  · exfalso
    have : a.data = 'T' :: ('o' :: b.data) := by simpa using h'
    exact str_no_T a ha _ this
  · exfalso
    have : a.data = 'T' :: ('O' :: b.data) := by simpa using h'
    exact str_no_T a ha _ this
  · exfalso
    have : b.data = 'T' :: ('o' :: a.data) := by simpa using h'.symm
    exact str_no_T b hb _ this
  · exact ⟨rfl, str_append_left_cancel _ _ _ h⟩
  · exfalso
    simp at h'
  · exfalso
    have : b.data = 'T' :: ('O' :: a.data) := by simpa using h'.symm
    exact str_no_T b hb _ this
  · exfalso
    simp at h'
  · exact ⟨rfl, str_append_left_cancel _ _ _ h⟩

theorem char_toNat_inj (a b : Char) (h : a.toNat = b.toNat) : a = b := by
  apply Char.ext
  apply UInt32.ext
  exact h

theorem bool_toNat_inj (a b : Bool) (h : a.toNat = b.toNat) : a = b := by
  cases a <;> cases b <;> simp_all

theorem unaryCode_append_inj : ∀ (n m : Nat) (xs ys : List Char),
    unaryCode n ++ xs = unaryCode m ++ ys → n = m ∧ xs = ys := by
  intro n
  induction n with
  | zero =>
    intro m xs ys h
    cases m with
    | zero => simpa [unaryCode] using h
    | succ m => simp [unaryCode, List.replicate_succ] at h
  | succ n ih =>
    intro m xs ys h
    cases m with
    | zero => simp [unaryCode, List.replicate_succ] at h
    | succ m =>
      simp only [unaryCode, List.replicate_succ, List.cons_append, List.cons.injEq, true_and] at h
      have := ih m xs ys (by simpa [unaryCode] using h)
      exact ⟨by omega, this.2⟩

theorem encodeNats_injective : ∀ (as bs : List Nat), encodeNats as = encodeNats bs → as = bs := by
  intro as
  induction as with
  | nil =>
    intro bs h
    cases bs with
    | nil => rfl
    | cons b bs =>
      exfalso
      cases b <;> simp [encodeNats, unaryCode, List.replicate_succ] at h
  | cons a as ih =>
    intro bs h
    cases bs with
    | nil =>
      exfalso
      cases a <;> simp [encodeNats, unaryCode, List.replicate_succ] at h
    | cons b bs =>
      simp only [encodeNats] at h
      obtain ⟨rfl, h'⟩ := unaryCode_append_inj a b _ _ h
      rw [ih bs h']

theorem introducer_cases (ctx : ASTContext) (c : SILDeclRef) :
    introducer ctx c = "_T" ∨ introducer ctx c = "_TTo" ∨ introducer ctx c = "_TTO" := by
  unfold introducer
  cases c.isForeign <;> cases c.isForeignThunk ctx <;> simp

theorem accessorLetter_ne_zero_iff (A : AccessorKind) :
    A.AccessorLetter ≠ '\x00' ↔ A ≠ AccessorKind.NotAccessor := by
  cases A <;> simp [AccessorKind.AccessorLetter]

/-- Bypasses aside, `mangleConstant` writes the chosen prefix followed by the output
of the sub-encoder call the dispatch table of section 4.2 names. -/
theorem mangleConstant_of_no_bypass (ctx : ASTContext) (mangler : Mangler) (c : SILDeclRef)
    (expansion : ResilienceExpansion) (hb : usesBypass ctx c = false) :
    mangleConstant ctx mangler c expansion
      = (entityCall ctx c expansion).map (fun call => introducer ctx c ++ mangler.run call) := by
  obtain ⟨loc, kind, level, curried, isForeign, index⟩ := c
  simp only [usesBypass, Bool.or_eq_false_iff] at hb
  obtain ⟨hasm, hclang⟩ := hb
  cases loc with
  | Closure ACE =>
    cases kind <;> simp [mangleConstant, entityCall, mangleOtherDecl, Mangler.run]
  | Decl vd =>
    obtain ⟨sh, hsh⟩ : ∃ sh, (ctx.Decls vd).Shape = sh := ⟨_, rfl⟩
    cases kind
    case Func =>
      simp only [usesAsmName] at hasm
      simp only [usesClangName, isAccessorDecl, hsh] at hclang
      simp only [mangleConstant, hasm, entityCall, hsh, mangleOtherDecl]
      cases sh with
      | FuncDecl P C A St =>
        cases A <;> simp [AccessorKind.AccessorLetter, Mangler.run]
        simp at hclang
        cases hcd : (ctx.Decls vd).getClangDecl <;> simp [hcd] at hclang ⊢
        intro h1 h2 h3
        exact absurd (hclang h3 h1) (by simp [h2])
      | _ =>
        simp [Mangler.run]
        simp at hclang
        cases hcd : (ctx.Decls vd).getClangDecl <;> simp [hcd] at hclang ⊢
        intro h1 h2 h3
        exact absurd (hclang h3 h1) (by simp [h2])
    case EnumElement =>
      simp only [usesClangName] at hclang
      simp only [mangleConstant, entityCall, mangleOtherDecl]
      simp [Mangler.run]
      cases hcd : (ctx.Decls vd).getClangDecl <;> simp [hcd] at hclang ⊢
      intro h1 h2 h3
      exact absurd (hclang h3 h1) (by simp [h2])
    all_goals
      simp only [mangleConstant, entityCall, hsh]
      cases sh <;> simp [Mangler.run]

/-- A reference agrees with the sub-encoder call the dispatch table gives it on every
field the call carries. -/
theorem entityCall_fields (ctx : ASTContext) (c : SILDeclRef) (expansion : ResilienceExpansion)
    (call : EntityCall) (h : entityCall ctx c expansion = some call) :
    c.kind ∈ call.kinds
    ∧ (∀ l, call.origin = some l → c.loc = l)
    ∧ (∀ n, call.level = some n → c.uncurryLevel = n)
    ∧ (∀ i, call.argIndex = some i → c.defaultArgIndex = i) := by
  obtain ⟨loc, kind, level, curried, isForeign, index⟩ := c
  cases loc with
  | Closure ACE =>
    cases kind <;> simp [entityCall] at h
    subst h
    simp [EntityCall.kinds, EntityCall.origin, EntityCall.level, EntityCall.argIndex]
  | Decl vd =>
    obtain ⟨sh, hsh⟩ : ∃ sh, (ctx.Decls vd).Shape = sh := ⟨_, rfl⟩
    cases kind
    case Func =>
      simp only [entityCall, hsh] at h
      cases sh with
      | FuncDecl P C A St =>
        cases A <;> simp at h <;> subst h <;>
          simp [EntityCall.kinds, EntityCall.origin, EntityCall.level, EntityCall.argIndex]
      | _ =>
        simp at h
        subst h
        simp [EntityCall.kinds, EntityCall.origin, EntityCall.level, EntityCall.argIndex]
    all_goals
      simp only [entityCall, hsh] at h
      cases sh <;> simp at h <;> subst h <;>
        simp [EntityCall.kinds, EntityCall.origin, EntityCall.level, EntityCall.argIndex]

theorem introducer_eq_flags (ctx : ASTContext) (c1 c2 : SILDeclRef)
    (h : introducer ctx c1 = introducer ctx c2) :
    c1.isForeign = c2.isForeign ∧ c1.isForeignThunk ctx = c2.isForeignThunk ctx := by
  have k1 := isForeignThunk_of_isForeign ctx c1
  have k2 := isForeignThunk_of_isForeign ctx c2
  unfold introducer at h
  cases hf1 : c1.isForeign <;> cases hf2 : c2.isForeign <;>
    cases ht1 : c1.isForeignThunk ctx <;> cases ht2 : c2.isForeignThunk ctx <;>
    simp_all

theorem unaryMangler_run (call : EntityCall) :
    unaryMangler.run call = String.mk (encodeNats call.code) := by
  cases call <;> rfl

theorem EntityCall.code_injective (a b : EntityCall) (h : a.code = b.code) : a = b := by
  have hc : ∀ x y : Char, x.toNat = y.toNat ↔ x = y :=
    fun x y => ⟨char_toNat_inj x y, fun e => by rw [e]⟩
  have hb : ∀ x y : Bool, x.toNat = y.toNat ↔ x = y :=
    fun x y => ⟨bool_toNat_inj x y, fun e => by rw [e]⟩
  cases a <;> cases b <;> simp [EntityCall.code, hc, hb] at h ⊢ <;> exact h

theorem unaryMangler_injective : Function.Injective unaryMangler.run := by
  intro a b h
  rw [unaryMangler_run, unaryMangler_run] at h
  apply EntityCall.code_injective
  apply encodeNats_injective
  exact congrArg String.data h

theorem encodeNats_head (t : List Char) (ns : List Nat) (h : encodeNats ns = 'T' :: t) :
    False := by
  cases ns with
  | nil => simp [encodeNats] at h
  | cons n ns => cases n <;> simp [encodeNats, unaryCode, List.replicate_succ] at h

theorem unaryMangler_no_T (call : EntityCall) (t : String) :
    unaryMangler.run call ≠ "T" ++ t := by
  intro h
  rw [unaryMangler_run] at h
  have h' := congrArg String.data h
  simp only [String.data_append] at h'
  exact encodeNats_head t.data call.code h'

theorem collidingMangler_run (call : EntityCall) :
    collidingMangler.run call
      = if call = EntityCall.entity 5 0 1 then "To" ++ unaryMangler.run (EntityCall.entity 5 0 0)
        else unaryMangler.run call := by
  cases call <;> simp [collidingMangler, Mangler.run]

theorem collidingMangler_injective : Function.Injective collidingMangler.run := by
  intro a b h
  rw [collidingMangler_run, collidingMangler_run] at h
  by_cases ha : a = EntityCall.entity 5 0 1 <;> by_cases hb : b = EntityCall.entity 5 0 1
  · rw [ha, hb]
  · exfalso
    rw [if_pos ha, if_neg hb] at h
    exact unaryMangler_no_T b ("o" ++ unaryMangler.run (EntityCall.entity 5 0 0))
      (by rw [← h]; rfl)
  · exfalso
    rw [if_neg ha, if_pos hb] at h
    exact unaryMangler_no_T a ("o" ++ unaryMangler.run (EntityCall.entity 5 0 0))
      (by rw [h]; rfl)
  · rw [if_neg ha, if_neg hb] at h
    exact unaryMangler_injective h

/-- C4 (as stated, refuted): with sub-encoders that are injective and have disjoint
ranges, structurally different references still get the same name. (a) The getter 3
of the examples at curry level 0 and at its natural level 1: the accessor encoder is
not given the level. (b) The functions 7 and 8, two declarations with the asm name
"puts": both names are the override. (c) The enum case 5 as the native
reference at level 1 and as the foreign reference at level 0, under
`collidingMangler`: "_T" followed by "To..." equals "_TTo" followed by "...". All six
references are built by the four-argument constructor. -/
theorem C4_counterexample_name_collisions :
    Function.Injective unaryMangler.run ∧ Function.Injective collidingMangler.run
    ∧ (SILDeclRef.ofValueDecl exampleContext exampleSentinel 3 Kind.Func 0 false
          = some ⟨Loc.Decl 3, Kind.Func, 0, true, false, 0⟩
        ∧ SILDeclRef.ofValueDecl exampleContext exampleSentinel 3 Kind.Func 1 false
          = some ⟨Loc.Decl 3, Kind.Func, 1, false, false, 0⟩
        ∧ (⟨Loc.Decl 3, Kind.Func, 0, true, false, 0⟩ : SILDeclRef)
            ≠ ⟨Loc.Decl 3, Kind.Func, 1, false, false, 0⟩
        ∧ SILDeclRef.mangle exampleContext unaryMangler ⟨Loc.Decl 3, Kind.Func, 0, true, false, 0⟩
            "" 0
          = some ("_T" ++ unaryMangler.mangleAccessorEntity 'g' 4 0)
        ∧ SILDeclRef.mangle exampleContext unaryMangler ⟨Loc.Decl 3, Kind.Func, 1, false, false, 0⟩
            "" 0
          = some ("_T" ++ unaryMangler.mangleAccessorEntity 'g' 4 0))
    ∧ (SILDeclRef.ofValueDecl exampleContext exampleSentinel 7 Kind.Func exampleSentinel false
          = some ⟨Loc.Decl 7, Kind.Func, 0, false, false, 0⟩
        ∧ SILDeclRef.ofValueDecl exampleContext exampleSentinel 8 Kind.Func exampleSentinel false
          = some ⟨Loc.Decl 8, Kind.Func, 0, false, false, 0⟩
        ∧ (⟨Loc.Decl 7, Kind.Func, 0, false, false, 0⟩ : SILDeclRef)
            ≠ ⟨Loc.Decl 8, Kind.Func, 0, false, false, 0⟩
        ∧ SILDeclRef.mangle exampleContext unaryMangler ⟨Loc.Decl 7, Kind.Func, 0, false, false, 0⟩
            "" 0 = some "puts"
        ∧ SILDeclRef.mangle exampleContext unaryMangler ⟨Loc.Decl 8, Kind.Func, 0, false, false, 0⟩
            "" 0 = some "puts")
    ∧ (SILDeclRef.ofValueDecl exampleContext exampleSentinel 5 Kind.EnumElement exampleSentinel
            false
          = some ⟨Loc.Decl 5, Kind.EnumElement, 1, false, false, 0⟩
        ∧ SILDeclRef.ofValueDecl exampleContext exampleSentinel 5 Kind.EnumElement 0 true
          = some ⟨Loc.Decl 5, Kind.EnumElement, 0, true, true, 0⟩
        ∧ (⟨Loc.Decl 5, Kind.EnumElement, 1, false, false, 0⟩ : SILDeclRef)
            ≠ ⟨Loc.Decl 5, Kind.EnumElement, 0, true, true, 0⟩
        ∧ SILDeclRef.mangle exampleContext collidingMangler
            ⟨Loc.Decl 5, Kind.EnumElement, 1, false, false, 0⟩ "" 0
          = some ("_TTo" ++ unaryMangler.mangleEntity 5 0 0)
        ∧ SILDeclRef.mangle exampleContext collidingMangler
            ⟨Loc.Decl 5, Kind.EnumElement, 0, true, true, 0⟩ "" 0
          = some ("_TTo" ++ unaryMangler.mangleEntity 5 0 0)) :=
  ⟨unaryMangler_injective, collidingMangler_injective,
    ⟨rfl, rfl, by decide, rfl, rfl⟩,
    ⟨rfl, rfl, by decide, rfl, rfl⟩,
    ⟨rfl, rfl, by decide, rfl, rfl⟩⟩

/-- C4 (amended): assume each sub-encoder is injective in the arguments it is given,
different sub-encoders never produce the same string, and no sub-encoder output
begins with the letter T. For one expansion mode, if two references that use neither
bypass (asm-name override, raw external name) are given the same name by `mangle`,
then they have the same foreign flag and thunk status and were given to the same
sub-encoder with the same arguments; so they agree on every field that call carries:
the kind (up to `Func` and `EnumElement` sharing the general encoder), the origin
(unless the call is the accessor one, which carries the role letter and the storage
declaration), the curry level for closure, general and constructor entities, and the
default-argument index for default-argument generators. -/
theorem C4_same_name_same_encoder_call (ctx : ASTContext) (mangler : Mangler)
    (expansion : ResilienceExpansion) (c1 c2 : SILDeclRef) (name : String)
    (hinj : Function.Injective mangler.run)
    (hT : ∀ call t, mangler.run call ≠ "T" ++ t)
    (hb1 : usesBypass ctx c1 = false) (hb2 : usesBypass ctx c2 = false)
    (h1 : SILDeclRef.mangle ctx mangler c1 "" expansion = some name)
    (h2 : SILDeclRef.mangle ctx mangler c2 "" expansion = some name) :
    c1.isForeign = c2.isForeign
    ∧ c1.isForeignThunk ctx = c2.isForeignThunk ctx
    ∧ ∃ call, entityCall ctx c1 expansion = some call
        ∧ entityCall ctx c2 expansion = some call
        ∧ name = introducer ctx c1 ++ mangler.run call
        ∧ c1.kind ∈ call.kinds ∧ c2.kind ∈ call.kinds
        ∧ (∀ l, call.origin = some l → c1.loc = l ∧ c2.loc = l)
        ∧ (∀ n, call.level = some n → c1.uncurryLevel = n ∧ c2.uncurryLevel = n)
        ∧ (∀ i, call.argIndex = some i → c1.defaultArgIndex = i ∧ c2.defaultArgIndex = i) := by
  have hempty : ("" : String).isEmpty = true := rfl
  simp only [SILDeclRef.mangle, hempty, if_true] at h1 h2
  rw [mangleConstant_of_no_bypass ctx mangler c1 expansion hb1] at h1
  rw [mangleConstant_of_no_bypass ctx mangler c2 expansion hb2] at h2
  cases hc1 : entityCall ctx c1 expansion with
  | none => simp [hc1] at h1
  | some call1 =>
    cases hc2 : entityCall ctx c2 expansion with
    | none => simp [hc2] at h2
    | some call2 =>
      simp only [hc1, Option.map_some', Option.some.injEq] at h1
      simp only [hc2, Option.map_some', Option.some.injEq] at h2
      have heq : introducer ctx c1 ++ mangler.run call1
          = introducer ctx c2 ++ mangler.run call2 := by rw [h1, h2]
      obtain ⟨hintro, hrun⟩ := introducer_decodable _ _ _ _ (introducer_cases ctx c1)
        (introducer_cases ctx c2) (hT call1) (hT call2) heq
      have hcall : call1 = call2 := hinj hrun
      subst hcall
      obtain ⟨hf, ht⟩ := introducer_eq_flags ctx c1 c2 hintro
      obtain ⟨k1, o1, l1, i1⟩ := entityCall_fields ctx c1 expansion call1 hc1
      obtain ⟨k2, o2, l2, i2⟩ := entityCall_fields ctx c2 expansion call1 hc2
      exact ⟨hf, ht, call1, rfl, rfl, h1.symm, k1, k2,
        fun l hl => ⟨o1 l hl, o2 l hl⟩, fun n hn => ⟨l1 n hn, l2 n hn⟩,
        fun i hi => ⟨i1 i hi, i2 i hi⟩⟩

/-- An instance of C4 (amended): the getter 3 of the examples at curry levels 0 and 1
gets one name under `unaryMangler`; the two references then share the accessor call,
the kind and the foreign flag, and nothing is concluded on their curry levels. -/
theorem C4_same_name_same_encoder_call_witness :
    Function.Injective unaryMangler.run
    ∧ SILDeclRef.mangle exampleContext unaryMangler ⟨Loc.Decl 3, Kind.Func, 0, true, false, 0⟩
        "" 0 = some ("_T" ++ unaryMangler.mangleAccessorEntity 'g' 4 0)
    ∧ SILDeclRef.mangle exampleContext unaryMangler ⟨Loc.Decl 3, Kind.Func, 1, false, false, 0⟩
        "" 0 = some ("_T" ++ unaryMangler.mangleAccessorEntity 'g' 4 0)
    ∧ ∃ call, entityCall exampleContext ⟨Loc.Decl 3, Kind.Func, 0, true, false, 0⟩ 0 = some call
        ∧ entityCall exampleContext ⟨Loc.Decl 3, Kind.Func, 1, false, false, 0⟩ 0 = some call
        ∧ "_T" ++ unaryMangler.mangleAccessorEntity 'g' 4 0
          = introducer exampleContext ⟨Loc.Decl 3, Kind.Func, 0, true, false, 0⟩
              ++ unaryMangler.run call
        ∧ Kind.Func ∈ call.kinds ∧ Kind.Func ∈ call.kinds
        ∧ (∀ l, call.origin = some l → Loc.Decl 3 = l ∧ Loc.Decl 3 = l)
        ∧ (∀ n, call.level = some n → 0 = n ∧ 1 = n)
        ∧ (∀ i, call.argIndex = some i → 0 = i ∧ 0 = i) :=
  ⟨unaryMangler_injective, rfl, rfl,
    (C4_same_name_same_encoder_call exampleContext unaryMangler 0
      ⟨Loc.Decl 3, Kind.Func, 0, true, false, 0⟩
      ⟨Loc.Decl 3, Kind.Func, 1, false, false, 0⟩
      ("_T" ++ unaryMangler.mangleAccessorEntity 'g' 4 0)
      unaryMangler_injective unaryMangler_no_T rfl rfl rfl rfl).2.2⟩

/-! ## Theorems: linkage -/

theorem merge_restrictiveness (a b : FormalLinkage) :
    (a.merge b).restrictiveness = max a.restrictiveness b.restrictiveness := by
  cases a <;> cases b <;> decide

theorem declContextWalk_ne_Top (tbl : ContextTable) :
    ∀ (fuel : Nat) (DC : DeclContextId) (L : FormalLinkage),
      declContextWalk tbl fuel DC = some L → 1 ≤ L.restrictiveness := by
  intro fuel
  induction fuel with
  | zero =>
    intro DC L h
    simp [declContextWalk] at h
  | succ f ih =>
    intro DC L h
    rw [declContextWalk] at h
    by_cases hm : (tbl.Contexts DC).isModuleScopeContext = true
    · by_cases hc : (tbl.Contexts DC).isClangModuleUnit = true
      · simp [hm, hc] at h
        subst h
        decide
      · simp [hm, hc] at h
        subst h
        decide
    · by_cases hl : (tbl.Contexts DC).isLocalContext = true
      · simp [hm, hl] at h
        subst h
        decide
      · simp [hm, hl] at h
        exact ih _ L h


theorem findIfLinkage_Nominal (tbl : ContextTable) (fuel : Nat) (nominal : DeclId)
    (Children : List CanType) (r : FormalLinkage) :
    findIfLinkage tbl fuel (.Nominal nominal Children) r
      = match getDeclLinkage tbl fuel nominal with
        | none => none
        | some linkage => findIfLinkageList tbl fuel Children (r.merge linkage) := rfl

theorem findIfLinkage_PolymorphicFunction (tbl : ContextTable) (fuel : Nat)
    (params : List (List CanType × Option CanType)) (Children : List CanType)
    (r : FormalLinkage) :
    findIfLinkage tbl fuel (.PolymorphicFunction params Children) r
      = match genericClauseLoop tbl fuel params FormalLinkage.Top with
        | none => none
        | some linkage => findIfLinkageList tbl fuel Children (r.merge linkage) := rfl

theorem findIfLinkage_Other (tbl : ContextTable) (fuel : Nat) (Children : List CanType)
    (r : FormalLinkage) :
    findIfLinkage tbl fuel (.Other Children) r = findIfLinkageList tbl fuel Children r := rfl

theorem findIfLinkageList_nil (tbl : ContextTable) (fuel : Nat) (r : FormalLinkage) :
    findIfLinkageList tbl fuel [] r = some r := rfl

theorem findIfLinkageList_cons (tbl : ContextTable) (fuel : Nat) (T : CanType)
    (Ts : List CanType) (r : FormalLinkage) :
    findIfLinkageList tbl fuel (T :: Ts) r
      = match findIfLinkage tbl fuel T r with
        | none => none
        | some r1 => findIfLinkageList tbl fuel Ts r1 := rfl

theorem genericClauseLoop_nil (tbl : ContextTable) (fuel : Nat) (r : FormalLinkage) :
    genericClauseLoop tbl fuel [] r = some r := rfl

theorem genericClauseLoop_cons_none (tbl : ContextTable) (fuel : Nat)
    (Protocols : List CanType) (params : List (List CanType × Option CanType))
    (r : FormalLinkage) :
    genericClauseLoop tbl fuel ((Protocols, none) :: params) r
      = match protocolLoop tbl fuel Protocols r with
        | none => none
        | some r1 => genericClauseLoop tbl fuel params r1 := rfl

theorem genericClauseLoop_cons_some (tbl : ContextTable) (fuel : Nat)
    (Protocols : List CanType) (superclass : CanType)
    (params : List (List CanType × Option CanType)) (r : FormalLinkage) :
    genericClauseLoop tbl fuel ((Protocols, some superclass) :: params) r
      = match protocolLoop tbl fuel Protocols r with
        | none => none
        | some r1 =>
          match findIfLinkage tbl fuel superclass FormalLinkage.Top with
          | none => none
          | some linkage => genericClauseLoop tbl fuel params (r1.merge linkage) := rfl

theorem protocolLoop_nil (tbl : ContextTable) (fuel : Nat) (r : FormalLinkage) :
    protocolLoop tbl fuel [] r = some r := rfl

theorem protocolLoop_cons (tbl : ContextTable) (fuel : Nat) (proto : CanType)
    (protos : List CanType) (r : FormalLinkage) :
    protocolLoop tbl fuel (proto :: protos) r
      = match findIfLinkage tbl fuel proto FormalLinkage.Top with
        | none => none
        | some linkage => protocolLoop tbl fuel protos (r.merge linkage) := rfl

theorem nominalsOf_Nominal (nominal : DeclId) (Children : List CanType) :
    nominalsOf (.Nominal nominal Children) = nominal :: nominalsOfList Children := rfl

theorem nominalsOf_PolymorphicFunction (params : List (List CanType × Option CanType))
    (Children : List CanType) :
    nominalsOf (.PolymorphicFunction params Children)
      = nominalsOfParams params ++ nominalsOfList Children := rfl

theorem nominalsOf_Other (Children : List CanType) :
    nominalsOf (.Other Children) = nominalsOfList Children := rfl

theorem nominalsOfList_nil : nominalsOfList [] = [] := rfl

theorem nominalsOfList_cons (T : CanType) (Ts : List CanType) :
    nominalsOfList (T :: Ts) = nominalsOf T ++ nominalsOfList Ts := rfl

theorem nominalsOfParams_nil : nominalsOfParams [] = [] := rfl

theorem nominalsOfParams_cons_none (Protocols : List CanType)
    (params : List (List CanType × Option CanType)) :
    nominalsOfParams ((Protocols, none) :: params)
      = nominalsOfList Protocols ++ [] ++ nominalsOfParams params := rfl

theorem nominalsOfParams_cons_some (Protocols : List CanType) (superclass : CanType)
    (params : List (List CanType × Option CanType)) :
    nominalsOfParams ((Protocols, some superclass) :: params)
      = nominalsOfList Protocols ++ nominalsOf superclass ++ nominalsOfParams params := rfl

mutual
theorem findIfLinkage_spec (tbl : ContextTable) (fuel : Nat) :
    ∀ (T : CanType) (r : FormalLinkage),
      (∀ D ∈ nominalsOf T, (getDeclLinkage tbl fuel D).isSome) →
      ∃ r', findIfLinkage tbl fuel T r = some r'
        ∧ r.restrictiveness ≤ r'.restrictiveness
        ∧ ∀ D ∈ nominalsOf T, ∃ LD, getDeclLinkage tbl fuel D = some LD
            ∧ LD.restrictiveness ≤ r'.restrictiveness
  | .Nominal nominal Children, r, h => by
    simp only [nominalsOf_Nominal, List.mem_cons, forall_eq_or_imp] at h ⊢
    obtain ⟨LD, hLD⟩ := Option.isSome_iff_exists.mp h.1
    obtain ⟨r', hr', hle, hcov⟩ :=
      findIfLinkageList_spec tbl fuel Children (r.merge LD) h.2
    have hm := merge_restrictiveness r LD
    refine ⟨r', ?_, by omega, ⟨LD, hLD, by omega⟩, hcov⟩
    simp [findIfLinkage_Nominal, hLD, hr']
  | .PolymorphicFunction GenericParameters Children, r, h => by
    simp only [nominalsOf_PolymorphicFunction, List.mem_append] at h ⊢
    obtain ⟨l, hl, _, hcovl⟩ :=
      genericClauseLoop_spec tbl fuel GenericParameters FormalLinkage.Top
        (fun D hD => h D (Or.inl hD))
    obtain ⟨r', hr', hle, hcov⟩ :=
      findIfLinkageList_spec tbl fuel Children (r.merge l) (fun D hD => h D (Or.inr hD))
    have hm := merge_restrictiveness r l
    refine ⟨r', ?_, by omega, ?_⟩
    · simp [findIfLinkage_PolymorphicFunction, hl, hr']
    · rintro D (hD | hD)
      · obtain ⟨LD, hLD, hLDle⟩ := hcovl D hD
        exact ⟨LD, hLD, by omega⟩
      · exact hcov D hD
  | .Other Children, r, h => by
    simp only [nominalsOf_Other] at h ⊢
    obtain ⟨r', hr', hle, hcov⟩ := findIfLinkageList_spec tbl fuel Children r h
    exact ⟨r', by simp [findIfLinkage_Other, hr'], hle, hcov⟩
theorem findIfLinkageList_spec (tbl : ContextTable) (fuel : Nat) :
    ∀ (Ts : List CanType) (r : FormalLinkage),
      (∀ D ∈ nominalsOfList Ts, (getDeclLinkage tbl fuel D).isSome) →
      ∃ r', findIfLinkageList tbl fuel Ts r = some r'
        ∧ r.restrictiveness ≤ r'.restrictiveness
        ∧ ∀ D ∈ nominalsOfList Ts, ∃ LD, getDeclLinkage tbl fuel D = some LD
            ∧ LD.restrictiveness ≤ r'.restrictiveness
  | [], r, _ => ⟨r, findIfLinkageList_nil tbl fuel r, le_refl _, by simp [nominalsOfList_nil]⟩
  | T :: Ts, r, h => by
    simp only [nominalsOfList_cons, List.mem_append] at h ⊢
    obtain ⟨r1, hr1, hle1, hcov1⟩ :=
      findIfLinkage_spec tbl fuel T r (fun D hD => h D (Or.inl hD))
    obtain ⟨r', hr', hle, hcov⟩ :=
      findIfLinkageList_spec tbl fuel Ts r1 (fun D hD => h D (Or.inr hD))
    refine ⟨r', by simp [findIfLinkageList_cons, hr1, hr'], by omega, ?_⟩
    rintro D (hD | hD)
    · obtain ⟨LD, hLD, hLDle⟩ := hcov1 D hD
      exact ⟨LD, hLD, by omega⟩
    · exact hcov D hD
theorem genericClauseLoop_spec (tbl : ContextTable) (fuel : Nat) :
    ∀ (params : List (List CanType × Option CanType)) (r : FormalLinkage),
      (∀ D ∈ nominalsOfParams params, (getDeclLinkage tbl fuel D).isSome) →
      ∃ r', genericClauseLoop tbl fuel params r = some r'
        ∧ r.restrictiveness ≤ r'.restrictiveness
        ∧ ∀ D ∈ nominalsOfParams params, ∃ LD, getDeclLinkage tbl fuel D = some LD
            ∧ LD.restrictiveness ≤ r'.restrictiveness
  | [], r, _ => ⟨r, genericClauseLoop_nil tbl fuel r, le_refl _, by simp [nominalsOfParams_nil]⟩
  | (Protocols, none) :: params, r, h => by
    simp only [nominalsOfParams_cons_none, List.mem_append, List.append_nil] at h ⊢
    obtain ⟨r1, hr1, hle1, hcov1⟩ :=
      protocolLoop_spec tbl fuel Protocols r (fun D hD => h D (Or.inl hD))
    obtain ⟨r', hr', hle, hcov⟩ :=
      genericClauseLoop_spec tbl fuel params r1 (fun D hD => h D (Or.inr hD))
    refine ⟨r', by simp [genericClauseLoop_cons_none, hr1, hr'], by omega, ?_⟩
    rintro D (hD | hD)
    · obtain ⟨LD, hLD, hLDle⟩ := hcov1 D hD
      exact ⟨LD, hLD, by omega⟩
    · exact hcov D hD
  | (Protocols, some superclass) :: params, r, h => by
    simp only [nominalsOfParams_cons_some, List.mem_append] at h ⊢
    obtain ⟨r1, hr1, hle1, hcov1⟩ :=
      protocolLoop_spec tbl fuel Protocols r (fun D hD => h D (Or.inl (Or.inl hD)))
    obtain ⟨l, hl, _, hcovl⟩ :=
      findIfLinkage_spec tbl fuel superclass FormalLinkage.Top
        (fun D hD => h D (Or.inl (Or.inr hD)))
    obtain ⟨r', hr', hle, hcov⟩ :=
      genericClauseLoop_spec tbl fuel params (r1.merge l) (fun D hD => h D (Or.inr hD))
    have hm := merge_restrictiveness r1 l
    refine ⟨r', by simp [genericClauseLoop_cons_some, hr1, hl, hr'], by omega, ?_⟩
    rintro D ((hD | hD) | hD)
    · obtain ⟨LD, hLD, hLDle⟩ := hcov1 D hD
      exact ⟨LD, hLD, by omega⟩
    · obtain ⟨LD, hLD, hLDle⟩ := hcovl D hD
      exact ⟨LD, hLD, by omega⟩
    · exact hcov D hD
theorem protocolLoop_spec (tbl : ContextTable) (fuel : Nat) :
    ∀ (protos : List CanType) (r : FormalLinkage),
      (∀ D ∈ nominalsOfList protos, (getDeclLinkage tbl fuel D).isSome) →
      ∃ r', protocolLoop tbl fuel protos r = some r'
        ∧ r.restrictiveness ≤ r'.restrictiveness
        ∧ ∀ D ∈ nominalsOfList protos, ∃ LD, getDeclLinkage tbl fuel D = some LD
            ∧ LD.restrictiveness ≤ r'.restrictiveness
  | [], r, _ => ⟨r, protocolLoop_nil tbl fuel r, le_refl _, by simp [nominalsOfList_nil]⟩
  | proto :: protos, r, h => by
    simp only [nominalsOfList_cons, List.mem_append] at h ⊢
    obtain ⟨l, hl, _, hcovl⟩ :=
      findIfLinkage_spec tbl fuel proto FormalLinkage.Top (fun D hD => h D (Or.inl hD))
    obtain ⟨r', hr', hle, hcov⟩ :=
      protocolLoop_spec tbl fuel protos (r.merge l) (fun D hD => h D (Or.inr hD))
    have hm := merge_restrictiveness r l
    refine ⟨r', by simp [protocolLoop_cons, hl, hr'], by omega, ?_⟩
    rintro D (hD | hD)
    · obtain ⟨LD, hLD, hLDle⟩ := hcovl D hD
      exact ⟨LD, hLD, by omega⟩
    · exact hcov D hD
end


theorem merge_Top_left (x : FormalLinkage) : FormalLinkage.Top.merge x = x := rfl

theorem merge_Top_right (x : FormalLinkage) : x.merge FormalLinkage.Top = x := by
  cases x <;> rfl

theorem merge_comm (x y : FormalLinkage) : x.merge y = y.merge x := by
  cases x <;> cases y <;> rfl

theorem merge_assoc (x y z : FormalLinkage) :
    (x.merge y).merge z = x.merge (y.merge z) := by
  cases x <;> cases y <;> cases z <;> rfl

theorem foldl_merge_from (r : FormalLinkage) (xs : List FormalLinkage) :
    xs.foldl FormalLinkage.merge r = r.merge (xs.foldl FormalLinkage.merge FormalLinkage.Top) := by
  induction xs generalizing r with
  | nil => simp [merge_Top_right]
  | cons x xs ih =>
    simp only [List.foldl_cons, merge_Top_left]
    rw [ih (r.merge x), ih x, merge_assoc]

theorem foldl_merge_perm (l1 l2 : List FormalLinkage) (h : l1.Perm l2) (r : FormalLinkage) :
    l1.foldl FormalLinkage.merge r = l2.foldl FormalLinkage.merge r := by
  apply List.Perm.foldl_eq' h
  intro x _ y _ z
  rw [merge_assoc, merge_assoc, merge_comm x y]

theorem linkagesOf_append (tbl : ContextTable) (fuel : Nat) (As Bs : List DeclId) :
    linkagesOf tbl fuel (As ++ Bs) = linkagesOf tbl fuel As ++ linkagesOf tbl fuel Bs := by
  simp [linkagesOf, List.filterMap_append]

mutual
theorem findIfLinkage_exact (tbl : ContextTable) (fuel : Nat) :
    ∀ (T : CanType) (r : FormalLinkage),
      (∀ D ∈ nominalsOf T, (getDeclLinkage tbl fuel D).isSome) →
      findIfLinkage tbl fuel T r
        = some ((linkagesOf tbl fuel (nominalsOf T)).foldl FormalLinkage.merge r)
  | .Nominal nominal Children, r, h => by
    simp only [nominalsOf_Nominal, List.mem_cons, forall_eq_or_imp] at h
    obtain ⟨LD, hLD⟩ := Option.isSome_iff_exists.mp h.1
    rw [findIfLinkage_Nominal, hLD, nominalsOf_Nominal]
    simp only [findIfLinkageList_exact tbl fuel Children (r.merge LD) h.2]
    simp [linkagesOf, List.filterMap_cons, hLD]
  | .PolymorphicFunction GenericParameters Children, r, h => by
    simp only [nominalsOf_PolymorphicFunction, List.mem_append] at h
    rw [findIfLinkage_PolymorphicFunction, nominalsOf_PolymorphicFunction,
      genericClauseLoop_exact tbl fuel GenericParameters FormalLinkage.Top
        (fun D hD => h D (Or.inl hD))]
    simp only [findIfLinkageList_exact tbl fuel Children _ (fun D hD => h D (Or.inr hD))]
    rw [linkagesOf_append, List.foldl_append,
      foldl_merge_from r (linkagesOf tbl fuel (nominalsOfParams GenericParameters))]
  | .Other Children, r, h => by
    simp only [nominalsOf_Other] at h
    rw [findIfLinkage_Other, nominalsOf_Other, findIfLinkageList_exact tbl fuel Children r h]
theorem findIfLinkageList_exact (tbl : ContextTable) (fuel : Nat) :
    ∀ (Ts : List CanType) (r : FormalLinkage),
      (∀ D ∈ nominalsOfList Ts, (getDeclLinkage tbl fuel D).isSome) →
      findIfLinkageList tbl fuel Ts r
        = some ((linkagesOf tbl fuel (nominalsOfList Ts)).foldl FormalLinkage.merge r)
  | [], r, _ => by
    rw [findIfLinkageList_nil, nominalsOfList_nil]
    rfl
  | T :: Ts, r, h => by
    simp only [nominalsOfList_cons, List.mem_append] at h
    rw [findIfLinkageList_cons, findIfLinkage_exact tbl fuel T r (fun D hD => h D (Or.inl hD))]
    simp only [findIfLinkageList_exact tbl fuel Ts _ (fun D hD => h D (Or.inr hD))]
    rw [nominalsOfList_cons, linkagesOf_append, List.foldl_append]
theorem genericClauseLoop_exact (tbl : ContextTable) (fuel : Nat) :
    ∀ (params : List (List CanType × Option CanType)) (r : FormalLinkage),
      (∀ D ∈ nominalsOfParams params, (getDeclLinkage tbl fuel D).isSome) →
      genericClauseLoop tbl fuel params r
        = some ((linkagesOf tbl fuel (nominalsOfParams params)).foldl FormalLinkage.merge r)
  | [], r, _ => by
    rw [genericClauseLoop_nil, nominalsOfParams_nil]
    rfl
  | (Protocols, none) :: params, r, h => by
    simp only [nominalsOfParams_cons_none, List.mem_append, List.append_nil] at h
    rw [genericClauseLoop_cons_none,
      protocolLoop_exact tbl fuel Protocols r (fun D hD => h D (Or.inl hD))]
    simp only [genericClauseLoop_exact tbl fuel params _ (fun D hD => h D (Or.inr hD))]
    rw [nominalsOfParams_cons_none, List.append_nil, linkagesOf_append, List.foldl_append]
  | (Protocols, some superclass) :: params, r, h => by
    simp only [nominalsOfParams_cons_some, List.mem_append] at h
    rw [genericClauseLoop_cons_some,
      protocolLoop_exact tbl fuel Protocols r (fun D hD => h D (Or.inl (Or.inl hD))),
      findIfLinkage_exact tbl fuel superclass FormalLinkage.Top
        (fun D hD => h D (Or.inl (Or.inr hD)))]
    simp only [genericClauseLoop_exact tbl fuel params _ (fun D hD => h D (Or.inr hD))]
    rw [nominalsOfParams_cons_some, linkagesOf_append, linkagesOf_append, List.foldl_append,
      List.foldl_append,
      foldl_merge_from
        (List.foldl FormalLinkage.merge r (linkagesOf tbl fuel (nominalsOfList Protocols)))
        (linkagesOf tbl fuel (nominalsOf superclass))]
theorem protocolLoop_exact (tbl : ContextTable) (fuel : Nat) :
    ∀ (protos : List CanType) (r : FormalLinkage),
      (∀ D ∈ nominalsOfList protos, (getDeclLinkage tbl fuel D).isSome) →
      protocolLoop tbl fuel protos r
        = some ((linkagesOf tbl fuel (nominalsOfList protos)).foldl FormalLinkage.merge r)
  | [], r, _ => by
    rw [protocolLoop_nil, nominalsOfList_nil]
    rfl
  | proto :: protos, r, h => by
    simp only [nominalsOfList_cons, List.mem_append] at h
    rw [protocolLoop_cons,
      findIfLinkage_exact tbl fuel proto FormalLinkage.Top (fun D hD => h D (Or.inl hD))]
    simp only [protocolLoop_exact tbl fuel protos _ (fun D hD => h D (Or.inr hD))]
    rw [nominalsOfList_cons, linkagesOf_append, List.foldl_append,
      foldl_merge_from r (linkagesOf tbl fuel (nominalsOf proto))]
end

theorem contextChain_succ (tbl : ContextTable) (i : Nat) (DC : DeclContextId) :
    contextChain tbl (i + 1) DC = contextChain tbl i (tbl.Contexts DC).Parent := rfl

/-- The loop of `getDeclLinkage` from a context whose chain has its first module-scope
context at position `n`: enough fuel gives the result, which is `Private` exactly when
a local context comes before position `n`, and otherwise tells whether the
module-scope context is a Clang module unit. -/
theorem declContextWalk_spec (tbl : ContextTable) :
    ∀ (n : Nat) (DC : DeclContextId) (fuel : Nat),
      (tbl.Contexts (contextChain tbl n DC)).isModuleScopeContext = true →
      (∀ i, i < n → (tbl.Contexts (contextChain tbl i DC)).isModuleScopeContext = false) →
      n < fuel →
      ∃ L, declContextWalk tbl fuel DC = some L
        ∧ (L = FormalLinkage.Private
            ↔ ∃ i, i < n ∧ (tbl.Contexts (contextChain tbl i DC)).isLocalContext = true)
        ∧ ((¬ ∃ i, i < n ∧ (tbl.Contexts (contextChain tbl i DC)).isLocalContext = true) →
            (L = FormalLinkage.PublicNonUnique
              ↔ (tbl.Contexts (contextChain tbl n DC)).isClangModuleUnit = true)
            ∧ (L = FormalLinkage.PublicUnique
              ↔ (tbl.Contexts (contextChain tbl n DC)).isClangModuleUnit = false)) := by
  intro n
  induction n with
  | zero =>
    intro DC fuel hreach _ hfuel
    obtain ⟨f, rfl⟩ : ∃ f, fuel = f + 1 := ⟨fuel - 1, by omega⟩
    simp only [contextChain] at hreach ⊢
    rw [declContextWalk]
    by_cases hc : (tbl.Contexts DC).isClangModuleUnit = true
    · refine ⟨FormalLinkage.PublicNonUnique, by simp [hreach, hc], by simp, ?_⟩
      intro _
      simp [hc]
    · refine ⟨FormalLinkage.PublicUnique, by simp [hreach, hc], by simp, ?_⟩
      intro _
      simp [hc]
  | succ n ih =>
    intro DC fuel hreach hfirst hfuel
    obtain ⟨f, rfl⟩ : ∃ f, fuel = f + 1 := ⟨fuel - 1, by omega⟩
    have h0 : (tbl.Contexts DC).isModuleScopeContext = false := hfirst 0 (by omega)
    rw [declContextWalk]
    by_cases hl : (tbl.Contexts DC).isLocalContext = true
    · refine ⟨FormalLinkage.Private, by simp [h0, hl], ?_, ?_⟩
      · simp only [true_iff]
        exact ⟨0, by omega, hl⟩
      · intro hno
        exact absurd ⟨0, by omega, hl⟩ hno
    · rw [contextChain_succ] at hreach
      obtain ⟨L, hL, hpriv, hpub⟩ := ih (tbl.Contexts DC).Parent f hreach
        (fun i hi => by
          have := hfirst (i + 1) (by omega)
          rwa [contextChain_succ] at this) (by omega)
      have hshift : (∃ i, i < n + 1
            ∧ (tbl.Contexts (contextChain tbl i DC)).isLocalContext = true)
          ↔ ∃ i, i < n ∧ (tbl.Contexts
              (contextChain tbl i (tbl.Contexts DC).Parent)).isLocalContext = true := by
        constructor
        · rintro ⟨i, hi, hloc⟩
          cases i with
          | zero => exact absurd hloc hl
          | succ i => exact ⟨i, by omega, by rwa [contextChain_succ] at hloc⟩
        · rintro ⟨i, hi, hloc⟩
          exact ⟨i + 1, by omega, by rwa [contextChain_succ]⟩
      refine ⟨L, by simp [h0, hl, hL], ?_, ?_⟩
      · rw [hshift]
        exact hpriv
      · rw [hshift, contextChain_succ]
        exact hpub

/-- C16: for a declaration `D` whose enclosing-context chain has its first
module-scope context after `n` parent steps, `getDeclLinkage(D)` returns (with more
than `n` loop tests of fuel), and the result is `Private` if and only if some context
on the chain before that module-scope context is local; otherwise it is
`PublicNonUnique` if and only if the module-scope context is a Clang module unit, and
`PublicUnique` in the remaining case. It is never `Top`. -/
theorem C16_decl_linkage (tbl : ContextTable) (D : DeclId) (n fuel : Nat)
    (hreach : (tbl.Contexts
      (contextChain tbl n (tbl.DeclContextOf D))).isModuleScopeContext = true)
    (hfirst : ∀ i, i < n →
      (tbl.Contexts (contextChain tbl i (tbl.DeclContextOf D))).isModuleScopeContext = false)
    (hfuel : n < fuel) :
    ∃ L, getDeclLinkage tbl fuel D = some L
      ∧ (L = FormalLinkage.Private
          ↔ ∃ i, i < n ∧ (tbl.Contexts
              (contextChain tbl i (tbl.DeclContextOf D))).isLocalContext = true)
      ∧ ((¬ ∃ i, i < n ∧ (tbl.Contexts
              (contextChain tbl i (tbl.DeclContextOf D))).isLocalContext = true) →
          (L = FormalLinkage.PublicNonUnique
            ↔ (tbl.Contexts
                (contextChain tbl n (tbl.DeclContextOf D))).isClangModuleUnit = true)
          ∧ (L = FormalLinkage.PublicUnique
            ↔ (tbl.Contexts
                (contextChain tbl n (tbl.DeclContextOf D))).isClangModuleUnit = false))
      ∧ L ≠ FormalLinkage.Top := by
  obtain ⟨L, hL, hpriv, hpub⟩ :=
    declContextWalk_spec tbl n (tbl.DeclContextOf D) fuel hreach hfirst hfuel
  refine ⟨L, hL, hpriv, hpub, ?_⟩
  intro hTop
  have := declContextWalk_ne_Top tbl fuel (tbl.DeclContextOf D) L hL
  rw [hTop] at this
  simp [FormalLinkage.restrictiveness] at this

/-- Scenario D, as instances of C16: declaration 1 of the examples lives in a Clang
module unit and is `PublicNonUnique`; declaration 3 is nested in a type inside a
function body and is `Private`. -/
theorem C16_decl_linkage_witness :
    ((exampleContexts.Contexts
        (contextChain exampleContexts 0 (exampleContexts.DeclContextOf 1))).isModuleScopeContext
        = true
      ∧ getDeclLinkage exampleContexts 1 1 = some FormalLinkage.PublicNonUnique
      ∧ ∃ L, getDeclLinkage exampleContexts 1 1 = some L ∧ L ≠ FormalLinkage.Top)
    ∧ ((exampleContexts.Contexts
        (contextChain exampleContexts 2 (exampleContexts.DeclContextOf 3))).isModuleScopeContext
        = true
      ∧ getDeclLinkage exampleContexts 3 3 = some FormalLinkage.Private
      ∧ ∃ L, getDeclLinkage exampleContexts 3 3 = some L ∧ L ≠ FormalLinkage.Top) :=
  ⟨⟨rfl, rfl,
      (C16_decl_linkage exampleContexts 1 0 1 rfl (by decide) (by decide)).imp
        (fun _ h => ⟨h.1, h.2.2.2⟩)⟩,
    ⟨rfl, rfl,
      (C16_decl_linkage exampleContexts 3 2 3 rfl (by decide) (by decide)).imp
        (fun _ h => ⟨h.1, h.2.2.2⟩)⟩⟩

/-- C17: the linkage merge satisfies `merge(Top, x) = x`, `merge(Private, x) = Private`,
commutativity and associativity; so folding it from `Top` over a list of linkage
contributions gives the same result for every order of the list. For the code:
`getTypeLinkage(T)` is that fold over the declaration linkages of the nominal types
occurring in `T`, in traversal order. -/
theorem C17_merge_laws :
    (∀ x : FormalLinkage, FormalLinkage.Top.merge x = x)
    ∧ (∀ x : FormalLinkage, FormalLinkage.Private.merge x = FormalLinkage.Private)
    ∧ (∀ x y : FormalLinkage, x.merge y = y.merge x)
    ∧ (∀ x y z : FormalLinkage, (x.merge y).merge z = x.merge (y.merge z))
    ∧ (∀ l1 l2 : List FormalLinkage, l1.Perm l2 →
        l1.foldl FormalLinkage.merge FormalLinkage.Top
          = l2.foldl FormalLinkage.merge FormalLinkage.Top)
    ∧ (∀ (tbl : ContextTable) (fuel : Nat) (T : CanType),
        (∀ D ∈ nominalsOf T, (getDeclLinkage tbl fuel D).isSome) →
        getTypeLinkage tbl fuel T
          = some ((linkagesOf tbl fuel (nominalsOf T)).foldl FormalLinkage.merge
              FormalLinkage.Top)) := by
  refine ⟨merge_Top_left, ?_, merge_comm, merge_assoc, ?_, ?_⟩
  · intro x
    cases x <;> rfl
  · intro l1 l2 h
    exact foldl_merge_perm l1 l2 h FormalLinkage.Top
  · intro tbl fuel T h
    exact findIfLinkage_exact tbl fuel T FormalLinkage.Top h

/-- C18: when the declaration linkage of every nominal type occurring in `T` is
defined (its context chain reaches module scope within the fuel), `getTypeLinkage(T)`
returns, and its result is at least as restrictive as `getDeclLinkage(D)` for every
nominal type declaration `D` occurring in `T`; it is `Private` as soon as one such
`D` has linkage `Private`, in particular when `D` is declared directly in a local
context, and it is `Top` only if no nominal type occurs in `T`. -/
theorem C18_type_linkage_bound (tbl : ContextTable) (fuel : Nat) (T : CanType)
    (hdecl : ∀ D ∈ nominalsOf T, (getDeclLinkage tbl fuel D).isSome) :
    ∃ L, getTypeLinkage tbl fuel T = some L
      ∧ (∀ D ∈ nominalsOf T, ∃ LD, getDeclLinkage tbl fuel D = some LD
          ∧ LD.restrictiveness ≤ L.restrictiveness)
      ∧ ((∃ D ∈ nominalsOf T, getDeclLinkage tbl fuel D = some FormalLinkage.Private) →
          L = FormalLinkage.Private)
      ∧ ((∃ D ∈ nominalsOf T,
            (tbl.Contexts (tbl.DeclContextOf D)).isModuleScopeContext = false
            ∧ (tbl.Contexts (tbl.DeclContextOf D)).isLocalContext = true) →
          L = FormalLinkage.Private)
      ∧ (L = FormalLinkage.Top → nominalsOf T = []) := by
  obtain ⟨L, hL, _, hcov⟩ := findIfLinkage_spec tbl fuel T FormalLinkage.Top hdecl
  have hpriv : (∃ D ∈ nominalsOf T, getDeclLinkage tbl fuel D = some FormalLinkage.Private) →
      L = FormalLinkage.Private := by
    rintro ⟨D, hD, hDP⟩
    obtain ⟨LD, hLD, hle⟩ := hcov D hD
    rw [hDP] at hLD
    simp at hLD
    subst hLD
    cases L <;> simp [FormalLinkage.restrictiveness] at hle ⊢
  refine ⟨L, hL, hcov, hpriv, ?_, ?_⟩
  · rintro ⟨D, hD, hmod, hloc⟩
    apply hpriv
    refine ⟨D, hD, ?_⟩
    obtain ⟨LD, hLD⟩ := Option.isSome_iff_exists.mp (hdecl D hD)
    unfold getDeclLinkage at hLD ⊢
    cases fuel with
    | zero => simp [declContextWalk] at hLD
    | succ f => simp [declContextWalk, hmod, hloc]
  · intro hTop
    by_contra hne
    obtain ⟨D, hD⟩ := List.exists_mem_of_ne_nil _ hne
    obtain ⟨LD, hLD, hle⟩ := hcov D hD
    have h1 := declContextWalk_ne_Top tbl fuel (tbl.DeclContextOf D) LD hLD
    have h0 : L.restrictiveness = 0 := by rw [hTop]; rfl
    omega

/-- An instance of C18: the example type mentions the nominal types 4, 1 and 0; its
linkage is `PublicNonUnique`, that of the imported nominal type 1. -/
theorem C18_type_linkage_bound_witness :
    (∀ D ∈ nominalsOf exampleType, (getDeclLinkage exampleContexts 2 D).isSome)
    ∧ nominalsOf exampleType = [4, 1, 0]
    ∧ getTypeLinkage exampleContexts 2 exampleType = some FormalLinkage.PublicNonUnique
    ∧ ∃ L, getTypeLinkage exampleContexts 2 exampleType = some L
        ∧ (L = FormalLinkage.Top → nominalsOf exampleType = []) :=
  ⟨by decide, rfl, rfl,
    (C18_type_linkage_bound exampleContexts 2 exampleType (by decide)).imp
      (fun _ h => ⟨h.1, h.2.2.2.2⟩)⟩

/-! ## Theorems: termination and frame of the path finder -/

theorem followChain_succ_none (G : ValueGraph) :
    ∀ (m : Nat) (V R : SILValue) (Ps : List Projection),
      followChain G m V = some (Ps, R) → projectionStep G R = none →
      followChain G (m + 1) V = none := by
  intro m
  induction m with
  | zero =>
    intro V R Ps h hroot
    simp [followChain] at h
    obtain ⟨_, rfl⟩ := h
    simp [followChain, hroot]
  | succ m ih =>
    intro V R Ps h hroot
    cases hstep : projectionStep G V with
    | none => simp [followChain, hstep] at h
    | some r =>
      obtain ⟨P, Op⟩ := r
      rw [followChain_succ G m V Op P hstep] at h
      rw [followChain_succ G (m + 1) V Op P hstep]
      cases hrec : followChain G m Op with
      | none => simp [hrec] at h
      | some q =>
        obtain ⟨Qs, W⟩ := q
        simp [hrec] at h
        obtain ⟨_, rfl⟩ := h
        simp [ih Op W Qs hrec hroot]

/-- In a graph where following operand 0 of address-projection instructions is
well-founded, the chain of projections from every value ends, after finitely many
instructions, on a value that no address-projection instruction defines. -/
theorem chain_ends_of_wellFounded (G : ValueGraph)
    (hwf : WellFounded (fun W V : SILValue => ∃ P, projectionStep G V = some (P, W)))
    (V : SILValue) :
    ∃ m Ps R, followChain G m V = some (Ps, R) ∧ projectionStep G R = none := by
  induction V using hwf.induction with
  | _ V ih =>
    cases hstep : projectionStep G V with
    | none => exact ⟨0, [], V, by simp [followChain], hstep⟩
    | some r =>
      obtain ⟨P, Op⟩ := r
      obtain ⟨m, Ps, R, hchain, hroot⟩ := ih Op ⟨P, hstep⟩
      refine ⟨m + 1, P :: Ps, R, ?_, hroot⟩
      rw [followChain_succ G m V Op P hstep, hchain]
      rfl

/-- The loop only appends to the path it is given: run from `P0 ++ Path`, it gives the
same cursor and `P0` followed by what it gives from `Path`. -/
theorem projectionWalk_append (G : ValueGraph) (V1 : SILValue) (P0 : List Projection) :
    ∀ (fuel : Nat) (Iter : SILValue) (Path : List Projection),
      projectionWalk G V1 fuel Iter (P0 ++ Path)
        = (projectionWalk G V1 fuel Iter Path).map (fun r => (r.1, P0 ++ r.2)) := by
  intro fuel
  induction fuel with
  | zero =>
    intro Iter Path
    simp [projectionWalk]
  | succ f ih =>
    intro Iter Path
    by_cases hV : V1 = Iter
    · subst hV
      simp [projectionWalk_stop_at_V1]
    · cases hstep : projectionStep G Iter with
      | none => simp [projectionWalk_stop_at_root G V1 Iter f _ hstep]
      | some r =>
        obtain ⟨P, Op⟩ := r
        rw [projectionWalk_step G V1 Iter Op P f _ hstep hV,
          projectionWalk_step G V1 Iter Op P f _ hstep hV, List.append_assoc]
        exact ih Op (Path ++ [P])

/-- C19: in a value graph where following operand 0 of address-projection
instructions is well-founded, the chain from `V2` has some number `m` of
address-projection instructions down to the first value that none defines; for all
`V1` the call returns as soon as the fuel allows `m + 1` tests of the loop
condition, it has run the loop body at most `m` times (one recorded entry per run),
and it returns false when `V1` is neither `V2` nor on the chain from `V2`. -/
theorem C19_walk_terminates_within_chain (G : ValueGraph)
    (hwf : WellFounded (fun W V : SILValue => ∃ P, projectionStep G V = some (P, W)))
    (V1 V2 : SILValue) :
    ∃ m Ps R, followChain G m V2 = some (Ps, R) ∧ projectionStep G R = none
      ∧ ∀ fuel, m < fuel →
        ∃ b Path, findAddressProjectionPathBetweenValues G fuel V1 V2 [] = some (b, Path)
          ∧ Path.length ≤ m
          ∧ ((V1 ≠ V2 ∧ ∀ k Qs, followChain G k V2 ≠ some (Qs, V1)) → b = false) := by
  obtain ⟨m, Ps, R, hchain, hroot⟩ := chain_ends_of_wellFounded G hwf V2
  refine ⟨m, Ps, R, hchain, hroot, ?_⟩
  intro fuel hfuel
  by_cases hV : V1 = V2
  · subst hV
    refine ⟨true, [], by simp [findAddressProjectionPathBetweenValues], by simp, ?_⟩
    rintro ⟨hne, _⟩
    exact absurd rfl hne
  · have hnone := followChain_succ_none G m V2 R Ps hchain hroot
    have hsome := projectionWalk_terminates G V1 (m + 1) V2 [] fuel hnone (by omega)
    obtain ⟨⟨Last, Path⟩, hwalk⟩ := Option.isSome_iff_exists.mp hsome
    obtain ⟨j, Qs, hj, hQs, _⟩ := projectionWalk_sound G V1 fuel V2 Last [] Path hwalk
    simp only [List.nil_append] at hQs
    subst hQs
    have hjm : j ≤ m := by
      by_contra hlt
      have := followChain_isSome_of_le G j (m + 1) V2 (by omega) (by simp [hj])
      simp [hnone] at this
    have hlen := followChain_length G j V2 Last Path hj
    refine ⟨!Path.isEmpty && V1 == Last, Path, ?_, by omega, ?_⟩
    · simp [findAddressProjectionPathBetweenValues, hV, hwalk]
    · rintro ⟨_, hoff⟩
      have hLast : V1 ≠ Last := by
        intro h
        subst h
        exact hoff j Path hj
      have : (V1 == Last) = false := by simpa using hLast
      simp [this]

theorem scenarioCGraph_wellFounded :
    WellFounded (fun W V : SILValue => ∃ P, projectionStep scenarioCGraph V = some (P, W)) := by
  have hroot : ∀ V : SILValue, V.Def ≠ 1 → projectionStep scenarioCGraph V = none := by
    intro V hV
    simp [projectionStep, scenarioCGraph, hV]
  have hacc0 : Acc (fun W V : SILValue => ∃ P, projectionStep scenarioCGraph V = some (P, W))
      ⟨0, 0⟩ := by
    constructor
    rintro W ⟨P, hP⟩
    rw [hroot ⟨0, 0⟩ (by decide)] at hP
    simp at hP
  constructor
  intro V
  constructor
  rintro W ⟨P, hP⟩
  by_cases hV : V.Def = 1
  · have hW : W = ⟨0, 0⟩ := by
      simp [projectionStep, scenarioCGraph, hV] at hP
      exact hP.2.symm
    rw [hW]
    exact hacc0
  · rw [hroot V hV] at hP
    simp at hP

/-- An instance of C19 on the graph of scenario C, which has no cycle of projections:
the call from the unrelated value `⟨2, 0⟩` to `⟨1, 0⟩` returns within the length of
the chain from `⟨1, 0⟩`. -/
theorem C19_walk_terminates_within_chain_witness :
    WellFounded (fun W V : SILValue => ∃ P, projectionStep scenarioCGraph V = some (P, W))
    ∧ findAddressProjectionPathBetweenValues scenarioCGraph 2 ⟨2, 0⟩ ⟨1, 0⟩ []
        = some (false, [Projection.StructField 5])
    ∧ ∃ m Ps R, followChain scenarioCGraph m ⟨1, 0⟩ = some (Ps, R)
        ∧ projectionStep scenarioCGraph R = none
        ∧ ∀ fuel, m < fuel →
          ∃ b Path, findAddressProjectionPathBetweenValues scenarioCGraph fuel ⟨2, 0⟩ ⟨1, 0⟩ []
              = some (b, Path)
            ∧ Path.length ≤ m
            ∧ (((⟨2, 0⟩ : SILValue) ≠ ⟨1, 0⟩
                ∧ ∀ k Qs, followChain scenarioCGraph k ⟨1, 0⟩ ≠ some (Qs, ⟨2, 0⟩)) →
              b = false) :=
  ⟨scenarioCGraph_wellFounded, rfl,
    C19_walk_terminates_within_chain scenarioCGraph scenarioCGraph_wellFounded ⟨2, 0⟩ ⟨1, 0⟩⟩

/-- C20: for all values and every initial content `P0` of `Path`, the call only
appends: it returns what the call with an empty path returns, with `P0` in front of
the recorded projections and the same boolean. When `V1` differs from `V2`, the
boolean is true exactly when the cursor equals `V1` after the loop, whatever `P0`
is: the test that the path is not empty changes nothing. -/
theorem C20_only_appends (G : ValueGraph) (fuel : Nat) (V1 V2 : SILValue)
    (P0 : List Projection) :
    findAddressProjectionPathBetweenValues G fuel V1 V2 P0
      = (findAddressProjectionPathBetweenValues G fuel V1 V2 []).map
          (fun r => (r.1, P0 ++ r.2))
    ∧ (V1 ≠ V2 → ∀ Last Path, projectionWalk G V1 fuel V2 P0 = some (Last, Path) →
        findAddressProjectionPathBetweenValues G fuel V1 V2 P0
          = some (decide (V1 = Last), Path)) := by
  have hkey : ∀ (Q0 : List Projection) (Last : SILValue) (Path : List Projection),
      V1 ≠ V2 → projectionWalk G V1 fuel V2 Q0 = some (Last, Path) →
      (!Path.isEmpty && V1 == Last) = decide (V1 = Last) := by
    intro Q0 Last Path hV hwalk
    by_cases hLast : V1 = Last
    · subst hLast
      obtain ⟨j, Qs, hj, hQs, _⟩ := projectionWalk_sound G V1 fuel V2 V1 Q0 Path hwalk
      have hlen := followChain_length G j V2 V1 Qs hj
      have hQne : Qs ≠ [] := by
        intro hnil
        subst hnil
        have hj0 : j = 0 := by simpa using hlen.symm
        subst hj0
        simp [followChain] at hj
        exact hV hj.symm
      have hPne : Path ≠ [] := by
        rw [hQs]
        simp [hQne]
      simp [hPne]
    · have : (V1 == Last) = false := by simpa using hLast
      simp [this, hLast]
  by_cases hV : V1 = V2
  · subst hV
    simp [findAddressProjectionPathBetweenValues]
  · refine ⟨?_, ?_⟩
    · unfold findAddressProjectionPathBetweenValues
      rw [if_neg hV, if_neg hV]
      have happ := projectionWalk_append G V1 P0 fuel V2 []
      rw [List.append_nil] at happ
      rw [happ]
      cases hwalk : projectionWalk G V1 fuel V2 [] with
      | none => rfl
      | some r =>
        obtain ⟨Last, Path⟩ := r
        have hwalk0 : projectionWalk G V1 fuel V2 P0 = some (Last, P0 ++ Path) := by
          rw [happ, hwalk]
          rfl
        simp only [Option.map_some']
        rw [hkey [] Last Path hV hwalk, hkey P0 Last (P0 ++ Path) hV hwalk0]
    · intro _ Last Path hwalk
      unfold findAddressProjectionPathBetweenValues
      rw [if_neg hV, hwalk]
      simp only
      rw [hkey P0 Last Path hV hwalk]

/-! ## Theorems: thunks and the dispatch of `mangleConstant` -/

theorem mangle_empty_buffer (ctx : ASTContext) (mangler : Mangler) (c : SILDeclRef)
    (expansion : ResilienceExpansion) :
    SILDeclRef.mangle ctx mangler c "" expansion = mangleConstant ctx mangler c expansion := by
  have hempty : ("" : String).isEmpty = true := rfl
  simp [SILDeclRef.mangle, hempty]

/-- The kind of a reference built by the four-argument constructor is `Func` exactly
when its declaration is a function declaration. -/
theorem ofValueDecl_kind_Func (ctx : ASTContext) (S : Nat) (vd : DeclId) (kind : Kind)
    (L : Nat) (f : Bool) (r : SILDeclRef)
    (h : SILDeclRef.ofValueDecl ctx S vd kind L f = some r) :
    r.loc = Loc.Decl vd ∧ (r.kind = Kind.Func ↔ (ctx.Decls vd).Shape.isFuncDecl = true) := by
  rw [ofValueDecl_eq] at h
  by_cases hrow : tableRow (ctx.Decls vd).Shape kind = true
  · rw [if_pos hrow] at h
    cases hset : setUncurryLevel S L (tableNaturalLevel (ctx.Decls vd).Shape) with
    | none => simp [hset] at h
    | some q =>
      simp [hset] at h
      subst h
      refine ⟨rfl, ?_⟩
      obtain ⟨sh, hsh⟩ : ∃ sh, (ctx.Decls vd).Shape = sh := ⟨_, rfl⟩
      simp only [hsh] at hrow ⊢
      cases sh <;> cases kind <;> simp_all [tableRow, DeclShape.isFuncDecl]
  · rw [if_neg hrow] at h
    simp at h

/-- C11 (as stated, refuted): the reference that `getDefaultArgGenerator` builds for
the Clang-imported function 0 of the examples, from a default reference with clear
flags, has kind `DefaultArgGenerator`, not `Func`, and `isForeignThunk()` is true
for it. -/
theorem C11_counterexample_default_arg_generator :
    (importedContext.Decls 0).Shape.isFuncDecl = true
    ∧ (importedContext.Decls 0).hasClangNode = true
    ∧ SILDeclRef.getDefaultArgGenerator exampleDefault (Loc.Decl 0) 3
        = ⟨Loc.Decl 0, Kind.DefaultArgGenerator, 0, false, false, 3⟩
    ∧ (SILDeclRef.getDefaultArgGenerator exampleDefault (Loc.Decl 0) 3).kind ≠ Kind.Func
    ∧ (SILDeclRef.getDefaultArgGenerator exampleDefault (Loc.Decl 0) 3).isForeignThunk
        importedContext = true :=
  ⟨rfl, rfl, rfl, by decide, rfl⟩

/-- C11 (amended): for every reference `r`, `isForeignThunk()` is false when `r` has
no backing declaration; when the backing declaration is a function declaration with a
Clang node it is true if and only if `r` is not marked foreign, whatever the kind of
`r`; and it is false for every other reference. For a reference built by either
constructor this makes it false whenever the kind is not `Func`; for a reference
built by `getDefaultArgGenerator` it is true exactly when the location is a
function declaration with a Clang node and the default reference is not foreign. -/
theorem C11_isForeignThunk_cases (ctx : ASTContext) (r : SILDeclRef) :
    (r.hasDecl = false → r.isForeignThunk ctx = false)
    ∧ (∀ vd, r.loc = Loc.Decl vd → (ctx.Decls vd).Shape.isFuncDecl = true →
        (ctx.Decls vd).hasClangNode = true →
        (r.isForeignThunk ctx = true ↔ r.isForeign = false))
    ∧ (∀ vd, r.loc = Loc.Decl vd →
        ¬ ((ctx.Decls vd).Shape.isFuncDecl = true ∧ (ctx.Decls vd).hasClangNode = true) →
        r.isForeignThunk ctx = false)
    ∧ (∀ S vd kind L f, SILDeclRef.ofValueDecl ctx S vd kind L f = some r →
        r.kind ≠ Kind.Func → r.isForeignThunk ctx = false)
    ∧ (∀ S baseLoc L f, SILDeclRef.ofLoc ctx S baseLoc L f = some r →
        r.kind ≠ Kind.Func → r.isForeignThunk ctx = false)
    ∧ (∀ Default loc index,
        (SILDeclRef.getDefaultArgGenerator Default loc index).kind = Kind.DefaultArgGenerator
        ∧ ((SILDeclRef.getDefaultArgGenerator Default loc index).isForeignThunk ctx = true
            ↔ ∃ vd, loc = Loc.Decl vd ∧ (ctx.Decls vd).Shape.isFuncDecl = true
                ∧ (ctx.Decls vd).hasClangNode = true ∧ Default.isForeign = false)) := by
  refine ⟨?_, ?_, ?_, ?_, ?_, ?_⟩
  · intro h
    unfold SILDeclRef.hasDecl at h
    unfold SILDeclRef.isForeignThunk
    cases hloc : r.loc <;> simp [hloc] at h ⊢
  · intro vd hloc hfunc hclang
    unfold SILDeclRef.isForeignThunk
    simp [hloc, hfunc, hclang]
  · intro vd hloc hnot
    unfold SILDeclRef.isForeignThunk
    simp only [hloc]
    by_cases hfunc : (ctx.Decls vd).Shape.isFuncDecl = true
    · have hclang : (ctx.Decls vd).hasClangNode = false := by
        cases hc : (ctx.Decls vd).hasClangNode
        · rfl
        · exact absurd ⟨hfunc, hc⟩ hnot
      simp [hclang]
    · simp [hfunc]
  · intro S vd kind L f h hkind
    obtain ⟨hloc, hiff⟩ := ofValueDecl_kind_Func ctx S vd kind L f r h
    unfold SILDeclRef.isForeignThunk
    have hfunc : (ctx.Decls vd).Shape.isFuncDecl = false := by
      cases hc : (ctx.Decls vd).Shape.isFuncDecl
      · rfl
      · exact absurd (hiff.mpr hc) hkind
    simp [hloc, hfunc]
  · intro S baseLoc L f h hkind
    rw [ofLoc_eq] at h
    by_cases hacc : acceptedBaseLoc ctx baseLoc = true
    · rw [if_pos hacc] at h
      cases hset : setUncurryLevel S L (naturalLevelOfLoc ctx baseLoc) with
      | none => simp [hset] at h
      | some q =>
        simp [hset] at h
        subst h
        cases baseLoc with
        | Closure ACE => rfl
        | Decl vd =>
          simp only [inferredKind, acceptedBaseLoc] at hkind hacc
          unfold SILDeclRef.isForeignThunk
          obtain ⟨sh, hsh⟩ : ∃ sh, (ctx.Decls vd).Shape = sh := ⟨_, rfl⟩
          simp only [hsh] at hkind hacc ⊢
          cases sh <;> simp_all [DeclShape.isFuncDecl]
    · rw [if_neg hacc] at h
      simp at h
  · intro Default loc index
    refine ⟨rfl, ?_⟩
    unfold SILDeclRef.isForeignThunk SILDeclRef.getDefaultArgGenerator
    cases loc with
    | Closure ACE => simp
    | Decl vd =>
      by_cases hfunc : (ctx.Decls vd).Shape.isFuncDecl = true <;>
        by_cases hclang : (ctx.Decls vd).hasClangNode = true <;>
        simp [hfunc, hclang]

/-- For a `Func` reference with a backing declaration the dispatch table always names
a sub-encoder call. -/
theorem entityCall_Func_isSome (ctx : ASTContext) (c : SILDeclRef)
    (expansion : ResilienceExpansion) (vd : DeclId)
    (hkind : c.kind = Kind.Func) (hloc : c.loc = Loc.Decl vd) :
    ∃ call, entityCall ctx c expansion = some call := by
  obtain ⟨sh, hsh⟩ : ∃ sh, (ctx.Decls vd).Shape = sh := ⟨_, rfl⟩
  simp only [entityCall, hkind, hloc, hsh]
  cases sh with
  | FuncDecl P C A St => cases A <;> simp
  | _ => simp

/-- C12: for a `Func` reference whose backing declaration carries a non-empty asm
name, in every expansion mode: if the reference is neither a thunk nor curried, the
name is exactly the asm name, whatever the accessor role and the Clang node of the
declaration; if it is a thunk or curried, neither bypass applies and the name is the
chosen prefix followed by the output of the sub-encoder the dispatch table names. -/
theorem C12_asm_name_override (ctx : ASTContext) (mangler : Mangler) (c : SILDeclRef)
    (expansion : ResilienceExpansion) (vd : DeclId)
    (hkind : c.kind = Kind.Func) (hloc : c.loc = Loc.Decl vd)
    (hasm : (ctx.Decls vd).AsmName.isEmpty = false) :
    ((c.isForeignThunk ctx = false ∧ c.isCurried = false) →
      SILDeclRef.mangle ctx mangler c "" expansion = some (ctx.Decls vd).AsmName)
    ∧ ((c.isForeignThunk ctx = true ∨ c.isCurried = true) →
      usesAsmName ctx c = false ∧ usesClangName ctx c = false
      ∧ ∃ call, entityCall ctx c expansion = some call
          ∧ SILDeclRef.mangle ctx mangler c "" expansion
              = some (introducer ctx c ++ mangler.run call)) := by
  constructor
  · rintro ⟨hthunk, hcur⟩
    rw [mangle_empty_buffer]
    simp [mangleConstant, hkind, hloc, hasm, hthunk, hcur]
  · intro hor
    have h1 : usesAsmName ctx c = false := by
      simp only [usesAsmName, hkind, hloc]
      rcases hor with h | h <;> simp [h]
    have h2 : usesClangName ctx c = false := by
      simp only [usesClangName, hkind, hloc]
      rcases hor with h | h <;> simp [h]
    have hb : usesBypass ctx c = false := by simp [usesBypass, h1, h2]
    obtain ⟨call, hcall⟩ := entityCall_Func_isSome ctx c expansion vd hkind hloc
    refine ⟨h1, h2, call, hcall, ?_⟩
    rw [mangle_empty_buffer, mangleConstant_of_no_bypass ctx mangler c expansion hb, hcall]
    rfl

/-- An instance of C12: function 7 of the examples carries the asm name "puts"; its
native reference at the natural level is named "puts", and its curried reference
does not use the override. -/
theorem C12_asm_name_override_witness :
    (exampleContext.Decls 7).AsmName.isEmpty = false
    ∧ SILDeclRef.mangle exampleContext unaryMangler ⟨Loc.Decl 7, Kind.Func, 0, false, false, 0⟩
        "" 0 = some "puts"
    ∧ (((⟨Loc.Decl 7, Kind.Func, 0, true, false, 0⟩ : SILDeclRef).isForeignThunk exampleContext
          = true ∨ (⟨Loc.Decl 7, Kind.Func, 0, true, false, 0⟩ : SILDeclRef).isCurried = true) →
        usesAsmName exampleContext ⟨Loc.Decl 7, Kind.Func, 0, true, false, 0⟩ = false
        ∧ usesClangName exampleContext ⟨Loc.Decl 7, Kind.Func, 0, true, false, 0⟩ = false
        ∧ ∃ call, entityCall exampleContext ⟨Loc.Decl 7, Kind.Func, 0, true, false, 0⟩ 0
              = some call
            ∧ SILDeclRef.mangle exampleContext unaryMangler
                ⟨Loc.Decl 7, Kind.Func, 0, true, false, 0⟩ "" 0
              = some (introducer exampleContext ⟨Loc.Decl 7, Kind.Func, 0, true, false, 0⟩
                  ++ unaryMangler.run call)) :=
  ⟨rfl,
    (C12_asm_name_override exampleContext unaryMangler
      ⟨Loc.Decl 7, Kind.Func, 0, false, false, 0⟩ 0 7 rfl rfl rfl).1 ⟨rfl, rfl⟩,
    (C12_asm_name_override exampleContext unaryMangler
      ⟨Loc.Decl 7, Kind.Func, 0, true, false, 0⟩ 0 7 rfl rfl rfl).2⟩

/-- C13 (as stated, refuted): (a) the foreign reference to the Clang function 0, which
is neither a thunk nor curried and whose Clang declaration has no asm label, is named
"puts", without the marker byte; (b) the reference to the imported enum case 2, whose
Clang declaration is not a declarator, is named by the prefix "_T" and the general
entity encoder. Both references are built by the four-argument constructor. -/
theorem C13_counterexample_raw_name :
    (SILDeclRef.ofValueDecl importedContext exampleSentinel 0 Kind.Func exampleSentinel true
        = some ⟨Loc.Decl 0, Kind.Func, 0, false, true, 0⟩
      ∧ (⟨Loc.Decl 0, Kind.Func, 0, false, true, 0⟩ : SILDeclRef).isForeignThunk importedContext
          = false
      ∧ (importedContext.Decls 0).getClangDecl
          = some { isDeclaratorDecl := true, AsmLabel := none, Name := "puts" }
      ∧ SILDeclRef.mangle importedContext unaryMangler ⟨Loc.Decl 0, Kind.Func, 0, false, true, 0⟩
          "" 0 = some "puts"
      ∧ SILDeclRef.mangle importedContext unaryMangler ⟨Loc.Decl 0, Kind.Func, 0, false, true, 0⟩
          "" 0 ≠ some ("\x01" ++ "puts"))
    ∧ (SILDeclRef.ofValueDecl importedContext exampleSentinel 2 Kind.EnumElement exampleSentinel
          false
        = some ⟨Loc.Decl 2, Kind.EnumElement, 0, false, false, 0⟩
      ∧ (⟨Loc.Decl 2, Kind.EnumElement, 0, false, false, 0⟩ : SILDeclRef).isForeignThunk
          importedContext = false
      ∧ (importedContext.Decls 2).getClangDecl
          = some { isDeclaratorDecl := false, AsmLabel := none, Name := "Red" }
      ∧ SILDeclRef.mangle importedContext unaryMangler
          ⟨Loc.Decl 2, Kind.EnumElement, 0, false, false, 0⟩ "" 0
        = some ("_T" ++ unaryMangler.mangleEntity 2 0 0)
      ∧ SILDeclRef.mangle importedContext unaryMangler
          ⟨Loc.Decl 2, Kind.EnumElement, 0, false, false, 0⟩ "" 0
        ≠ some ("\x01" ++ "Red")) :=
  ⟨⟨rfl, rfl, rfl, rfl, by decide⟩, ⟨rfl, rfl, rfl, rfl, by decide⟩⟩

/-- C13 (amended): for an `EnumElement` reference, or a `Func` reference that falls
through to the general case (backing declaration, no override used, not an accessor),
whose declaration has a Clang declaration and which is neither a thunk nor curried:
when the Clang declaration is a declarator, the name is the marker byte 0x01 followed
by its asm label when it has one, and otherwise its name alone, without marker byte,
and no prefix or entity encoder is used; when the Clang declaration is not a
declarator, the name is the chosen prefix followed by the general entity encoding. -/
theorem C13_raw_external_name (ctx : ASTContext) (mangler : Mangler) (c : SILDeclRef)
    (expansion : ResilienceExpansion) (vd : DeclId) (clangDecl : ClangDecl)
    (hloc : c.loc = Loc.Decl vd)
    (hkind : c.kind = Kind.EnumElement
      ∨ (c.kind = Kind.Func ∧ usesAsmName ctx c = false ∧ isAccessorDecl ctx vd = false))
    (hclang : (ctx.Decls vd).getClangDecl = some clangDecl)
    (hthunk : c.isForeignThunk ctx = false) (hcur : c.isCurried = false) :
    (clangDecl.isDeclaratorDecl = true → ∀ asmLabel, clangDecl.AsmLabel = some asmLabel →
      SILDeclRef.mangle ctx mangler c "" expansion = some ("\x01" ++ asmLabel))
    ∧ (clangDecl.isDeclaratorDecl = true → clangDecl.AsmLabel = none →
      SILDeclRef.mangle ctx mangler c "" expansion = some clangDecl.Name)
    ∧ (clangDecl.isDeclaratorDecl = false →
      SILDeclRef.mangle ctx mangler c "" expansion
        = some (introducer ctx c ++ mangler.mangleEntity vd expansion c.uncurryLevel)) := by
  have hother : mangleConstant ctx mangler c expansion
      = mangleOtherDecl ctx mangler c expansion := by
    rcases hkind with hk | ⟨hk, hasm, hacc⟩
    · simp [mangleConstant, hk]
    · simp only [usesAsmName, hk, hloc] at hasm
      simp only [isAccessorDecl] at hacc
      simp only [mangleConstant, hk, hloc, hasm]
      obtain ⟨sh, hsh⟩ : ∃ sh, (ctx.Decls vd).Shape = sh := ⟨_, rfl⟩
      simp only [hsh] at hacc ⊢
      cases sh with
      | FuncDecl P C A St =>
        have hA : A = AccessorKind.NotAccessor := by simpa using hacc
        subst hA
        simp [AccessorKind.AccessorLetter]
      | _ => simp
  rw [mangle_empty_buffer, hother]
  simp only [mangleOtherDecl, hloc, hclang, hthunk, hcur]
  refine ⟨?_, ?_, ?_⟩
  · intro hd asmLabel hlabel
    simp [hd, hlabel]
  · intro hd hlabel
    simp [hd, hlabel]
  · intro hd
    simp [hd]

/-- An instance of C13 (amended): the foreign reference to the Clang function 1 of the
examples, whose Clang declaration carries the asm label "fputs_alias", is named by
the marker byte followed by the label. -/
theorem C13_raw_external_name_witness :
    SILDeclRef.ofValueDecl importedContext exampleSentinel 1 Kind.Func exampleSentinel true
      = some ⟨Loc.Decl 1, Kind.Func, 0, false, true, 0⟩
    ∧ (importedContext.Decls 1).getClangDecl
        = some { isDeclaratorDecl := true, AsmLabel := some "fputs_alias", Name := "fputs" }
    ∧ SILDeclRef.mangle importedContext unaryMangler ⟨Loc.Decl 1, Kind.Func, 0, false, true, 0⟩
        "" 0 = some ("\x01" ++ "fputs_alias") :=
  ⟨rfl, rfl,
    (C13_raw_external_name importedContext unaryMangler ⟨Loc.Decl 1, Kind.Func, 0, false, true, 0⟩
      0 1 { isDeclaratorDecl := true, AsmLabel := some "fputs_alias", Name := "fputs" }
      rfl (Or.inr ⟨rfl, rfl, rfl⟩) rfl rfl rfl).1 rfl "fputs_alias" rfl⟩

/-- C14: for a `Func` reference whose backing declaration is a function with an
accessor role, when the asm-name override does not apply, the name in every
expansion mode is the chosen prefix followed by
`mangleAccessorEntity(letter, storage, expansion)` with the letter `g` for a getter,
`s` for a setter, `w` for will-set and `W` for did-set; so a getter reference that is
neither foreign nor a thunk is named "_T" followed by the accessor entity with `g`.
For a function that is not an accessor the name does not depend on the accessor
encoder, with or without override. -/
theorem C14_accessor_encoding (ctx : ASTContext) (mangler : Mangler) (c : SILDeclRef)
    (expansion : ResilienceExpansion) (vd : DeclId) (P : Nat) (Captures : Bool)
    (A : AccessorKind) (storage : DeclId)
    (hkind : c.kind = Kind.Func) (hloc : c.loc = Loc.Decl vd)
    (hshape : (ctx.Decls vd).Shape = DeclShape.FuncDecl P Captures A storage) :
    (usesAsmName ctx c = false →
      (A = AccessorKind.IsGetter →
        SILDeclRef.mangle ctx mangler c "" expansion
          = some (introducer ctx c ++ mangler.mangleAccessorEntity 'g' storage expansion))
      ∧ (A = AccessorKind.IsSetter →
        SILDeclRef.mangle ctx mangler c "" expansion
          = some (introducer ctx c ++ mangler.mangleAccessorEntity 's' storage expansion))
      ∧ (A = AccessorKind.IsWillSet →
        SILDeclRef.mangle ctx mangler c "" expansion
          = some (introducer ctx c ++ mangler.mangleAccessorEntity 'w' storage expansion))
      ∧ (A = AccessorKind.IsDidSet →
        SILDeclRef.mangle ctx mangler c "" expansion
          = some (introducer ctx c ++ mangler.mangleAccessorEntity 'W' storage expansion))
      ∧ (A = AccessorKind.IsGetter → c.isForeign = false → c.isForeignThunk ctx = false →
        SILDeclRef.mangle ctx mangler c "" expansion
          = some ("_T" ++ mangler.mangleAccessorEntity 'g' storage expansion)))
    ∧ (A = AccessorKind.NotAccessor → ∀ encoder : Char → DeclId → ResilienceExpansion → String,
        SILDeclRef.mangle ctx { mangler with mangleAccessorEntity := encoder } c "" expansion
          = SILDeclRef.mangle ctx mangler c "" expansion) := by
  constructor
  · intro hasm
    simp only [usesAsmName, hkind, hloc] at hasm
    rw [mangle_empty_buffer]
    simp only [mangleConstant, hkind, hloc, hasm, hshape]
    refine ⟨?_, ?_, ?_, ?_, ?_⟩
    · rintro rfl
      simp [AccessorKind.AccessorLetter]
    · rintro rfl
      simp [AccessorKind.AccessorLetter]
    · rintro rfl
      simp [AccessorKind.AccessorLetter]
    · rintro rfl
      simp [AccessorKind.AccessorLetter]
    · rintro rfl hf ht
      simp [AccessorKind.AccessorLetter, introducer, hf, ht]
  · rintro rfl encoder
    rw [mangle_empty_buffer, mangle_empty_buffer]
    simp only [mangleConstant, hkind, hloc, hshape, AccessorKind.AccessorLetter,
      mangleOtherDecl]
    simp

/-- Scenario A, as an instance of C14: the getter 3 of the stored variable 4 of the
examples, native and not curried, is named "_T" followed by the accessor entity with
the letter `g`. -/
theorem C14_accessor_encoding_witness :
    (exampleContext.Decls 3).Shape = DeclShape.FuncDecl 2 false AccessorKind.IsGetter 4
    ∧ usesAsmName exampleContext ⟨Loc.Decl 3, Kind.Func, 1, false, false, 0⟩ = false
    ∧ SILDeclRef.mangle exampleContext unaryMangler ⟨Loc.Decl 3, Kind.Func, 1, false, false, 0⟩
        "" 0 = some ("_T" ++ unaryMangler.mangleAccessorEntity 'g' 4 0) :=
  ⟨rfl, rfl,
    ((C14_accessor_encoding exampleContext unaryMangler
      ⟨Loc.Decl 3, Kind.Func, 1, false, false, 0⟩ 0 3 2 false AccessorKind.IsGetter 4
      rfl rfl rfl).1 rfl).2.2.2.2 rfl rfl rfl⟩

/-- C15: for a reference whose origin is the declaration `vd`, in every expansion
mode the name is the chosen prefix followed by the output of the sub-encoder of its
kind: `Deallocator` and `Destroyer` give the destructor entity of a destructor
declaration with `isDeallocating` true and false; `Allocator` and `Initializer` the
constructor entity of a constructor declaration with `allocating` true and false, the
expansion and the curry level; `IVarInitializer` and `IVarDestroyer` the ivar entity
of a class with `isDestroyer` false and true; `GlobalAccessor` the addressor entity;
`DefaultArgGenerator` the default-argument entity of a function, constructor or
destructor declaration with the default-argument index. A `Func` reference to a
closure gives the closure entity with the expansion and the curry level. Where the
declaration is not of the class the kind needs, the cast fails and no name is
produced. -/
theorem C15_kind_dispatch (ctx : ASTContext) (mangler : Mangler) (c : SILDeclRef)
    (expansion : ResilienceExpansion) (vd : DeclId) (hloc : c.loc = Loc.Decl vd) :
    (c.kind = Kind.Deallocator → (ctx.Decls vd).Shape = DeclShape.DestructorDecl →
      SILDeclRef.mangle ctx mangler c "" expansion
        = some (introducer ctx c ++ mangler.mangleDestructorEntity vd true))
    ∧ (c.kind = Kind.Destroyer → (ctx.Decls vd).Shape = DeclShape.DestructorDecl →
      SILDeclRef.mangle ctx mangler c "" expansion
        = some (introducer ctx c ++ mangler.mangleDestructorEntity vd false))
    ∧ (c.kind = Kind.Allocator → (ctx.Decls vd).Shape = DeclShape.ConstructorDecl →
      SILDeclRef.mangle ctx mangler c "" expansion
        = some (introducer ctx c
            ++ mangler.mangleConstructorEntity vd true expansion c.uncurryLevel))
    ∧ (c.kind = Kind.Initializer → (ctx.Decls vd).Shape = DeclShape.ConstructorDecl →
      SILDeclRef.mangle ctx mangler c "" expansion
        = some (introducer ctx c
            ++ mangler.mangleConstructorEntity vd false expansion c.uncurryLevel))
    ∧ (c.kind = Kind.IVarInitializer → (ctx.Decls vd).Shape = DeclShape.ClassDecl →
      SILDeclRef.mangle ctx mangler c "" expansion
        = some (introducer ctx c ++ mangler.mangleIVarInitDestroyEntity vd false))
    ∧ (c.kind = Kind.IVarDestroyer → (ctx.Decls vd).Shape = DeclShape.ClassDecl →
      SILDeclRef.mangle ctx mangler c "" expansion
        = some (introducer ctx c ++ mangler.mangleIVarInitDestroyEntity vd true))
    ∧ (c.kind = Kind.GlobalAccessor →
      SILDeclRef.mangle ctx mangler c "" expansion
        = some (introducer ctx c ++ mangler.mangleAddressorEntity vd))
    ∧ (c.kind = Kind.DefaultArgGenerator →
      (ctx.Decls vd).Shape.isAbstractFunctionDecl = true →
      SILDeclRef.mangle ctx mangler c "" expansion
        = some (introducer ctx c
            ++ mangler.mangleDefaultArgumentEntity vd c.defaultArgIndex))
    ∧ (∀ (c' : SILDeclRef) (ACE : ClosureId), c'.kind = Kind.Func →
      c'.loc = Loc.Closure ACE →
      SILDeclRef.mangle ctx mangler c' "" expansion
        = some (introducer ctx c'
            ++ mangler.mangleClosureEntity ACE expansion c'.uncurryLevel))
    ∧ (((c.kind = Kind.Deallocator ∨ c.kind = Kind.Destroyer)
          ∧ (ctx.Decls vd).Shape ≠ DeclShape.DestructorDecl)
        ∨ ((c.kind = Kind.Allocator ∨ c.kind = Kind.Initializer)
          ∧ (ctx.Decls vd).Shape ≠ DeclShape.ConstructorDecl)
        ∨ ((c.kind = Kind.IVarInitializer ∨ c.kind = Kind.IVarDestroyer)
          ∧ (ctx.Decls vd).Shape ≠ DeclShape.ClassDecl)
        ∨ (c.kind = Kind.DefaultArgGenerator
          ∧ (ctx.Decls vd).Shape.isAbstractFunctionDecl = false) →
      SILDeclRef.mangle ctx mangler c "" expansion = none) := by
  rw [mangle_empty_buffer]
  obtain ⟨sh, hsh⟩ : ∃ sh, (ctx.Decls vd).Shape = sh := ⟨_, rfl⟩
  refine ⟨?_, ?_, ?_, ?_, ?_, ?_, ?_, ?_, ?_, ?_⟩
  · intro hk hs
    simp [mangleConstant, hk, hloc, hs]
  · intro hk hs
    simp [mangleConstant, hk, hloc, hs]
  · intro hk hs
    simp [mangleConstant, hk, hloc, hs]
  · intro hk hs
    simp [mangleConstant, hk, hloc, hs]
  · intro hk hs
    simp [mangleConstant, hk, hloc, hs]
  · intro hk hs
    simp [mangleConstant, hk, hloc, hs]
  · intro hk
    simp [mangleConstant, hk, hloc]
  · intro hk hs
    simp only [mangleConstant, hk, hloc, hsh]
    simp only [hsh] at hs
    cases sh <;> simp [DeclShape.isAbstractFunctionDecl] at hs ⊢
  · intro c' ACE hk hl
    rw [mangle_empty_buffer]
    simp [mangleConstant, hk, hl]
  · intro h
    simp only [hsh] at h
    rcases h with ⟨hk | hk, hs⟩ | ⟨hk | hk, hs⟩ | ⟨hk | hk, hs⟩ | ⟨hk, hs⟩ <;>
      simp only [mangleConstant, hk, hloc, hsh]
    all_goals cases sh <;> simp [DeclShape.isAbstractFunctionDecl] at hs ⊢

/-- An instance of C15: the deallocating reference to the destructor 6 of the
examples is named "_T" followed by the destructor entity with `isDeallocating` true. -/
theorem C15_kind_dispatch_witness :
    (exampleContext.Decls 6).Shape = DeclShape.DestructorDecl
    ∧ SILDeclRef.ofLoc exampleContext exampleSentinel (Loc.Decl 6) exampleSentinel false
        = some ⟨Loc.Decl 6, Kind.Deallocator, 0, false, false, 0⟩
    ∧ SILDeclRef.mangle exampleContext unaryMangler
        ⟨Loc.Decl 6, Kind.Deallocator, 0, false, false, 0⟩ "" 0
      = some (introducer exampleContext ⟨Loc.Decl 6, Kind.Deallocator, 0, false, false, 0⟩
          ++ unaryMangler.mangleDestructorEntity 6 true) :=
  ⟨rfl, rfl,
    (C15_kind_dispatch exampleContext unaryMangler
      ⟨Loc.Decl 6, Kind.Deallocator, 0, false, false, 0⟩ 0 6 rfl).1 rfl rfl⟩

end SIL
